import Mathlib

/-!
# ESP32 802.11LR chat room: the protocol engine of `src/main.cpp`

A shallow embedding of the sketch's protocol code (history buffer, envelope
decoding, history replay, inbound dispatch, operator input, heartbeat) and
theorems about it.

Conventions of the embedding

* An Arduino `String` is a `List Char`, one `Char` per byte; `length()` is
  the list length.  The `String` members the sketch calls (`indexOf`,
  `substring`, `startsWith`, `trim`) follow the Arduino core (`WString.cpp`).
* `size_t` and `unsigned long` are 32 bit wide on the ESP32: they are `Nat`
  with every operation reduced modulo `2^32`.  `int` indices into a `String`
  are `Int`, `-1` meaning "not found".
* The globals of the sketch and the two output channels (datagrams handed to
  `udp.endPacket`, lines written by `Serial.println`) are the fields of
  `Device`; every function of the sketch is a `Device → … → Device` map and
  sequencing in the source is composition.
* An inbound datagram goes through `receive` (lines 179-186: at most 511
  bytes are read, and the `String` built from them ends at the first NUL) and
  then through the dispatch `loop_udp` on the received text; `loop_packet` is
  the two together.
* `while` loops are structural recursions on a bound of the number of
  iterations (the bytes that remain); `evict_loop_fuel` and
  `chunk_loop_fuel` show that the bound is never what ends the loop.
-/

namespace Chat

/-- An Arduino `String`: the bytes before the terminating NUL. -/
abbrev Str := List Char

/-! ## Arduino `String` members used by the sketch -/

namespace WString

/-- The C routine `strchr(s, c)`: offset of the first `c` in `s`. -/
def strchr (c : Char) : Str → Option Nat
  | [] => none
  | x :: xs => if x = c then some 0 else (strchr c xs).map (· + 1)

/-- The C routine `strstr(s, pat)`: offset of the first occurrence of `pat`. -/
def strstr (pat : Str) : Str → Option Nat
  | [] => if pat = [] then some 0 else none
  | x :: xs => if pat <+: x :: xs then some 0 else (strstr pat xs).map (· + 1)

/-- `String::indexOf(char ch, unsigned int fromIndex)`. -/
def indexOfCharFrom (s : Str) (ch : Char) (fromIndex : Nat) : Int :=
  if fromIndex ≥ s.length then -1
  else match strchr ch (s.drop fromIndex) with
    | none => -1
    | some i => ((fromIndex + i : Nat) : Int)

/-- `String::indexOf(char ch)`, which is `indexOf(ch, 0)`. -/
def indexOfChar (s : Str) (ch : Char) : Int := indexOfCharFrom s ch 0

/-- `String::indexOf(const String &s2, unsigned int fromIndex)`. -/
def indexOfFrom (s pat : Str) (fromIndex : Nat) : Int :=
  if fromIndex ≥ s.length then -1
  else match strstr pat (s.drop fromIndex) with
    | none => -1
    | some i => ((fromIndex + i : Nat) : Int)

/-- `String::indexOf(const String &s2)`, which is `indexOf(s2, 0)`. -/
def indexOf (s pat : Str) : Int := indexOfFrom s pat 0

/-- `String::substring(unsigned int left, unsigned int right)`: the bounds are
swapped when out of order, the result is empty when `left` is past the end,
and `right` is clipped to the length. -/
def substring (s : Str) (left right : Nat) : Str :=
  let l := if left > right then right else left
  let r := if left > right then left else right
  if l ≥ s.length then []
  else (s.take (if r > s.length then s.length else r)).drop l

/-- `String::substring(unsigned int left)`, which is `substring(left, len)`. -/
def substringFrom (s : Str) (left : Nat) : Str := substring s left s.length

/-- `String::startsWith(const String &s2)`. -/
def startsWith (s s2 : Str) : Bool :=
  if s.length < s2.length then false else decide (s2 <+: s)

/-- The C routine `isspace` in the "C" locale. -/
def isspace (c : Char) : Bool :=
  c = ' ' || c = '\t' || c = '\n' || c = '\x0b' || c = '\x0c' || c = '\r'

/-- `String::trim()`: white space is removed at both ends. -/
def trim (s : Str) : Str :=
  ((s.dropWhile isspace).reverse.dropWhile isspace).reverse

end WString

/-! ## Constants and globals -/

/-- Number of values of a `size_t` / `unsigned long` on the ESP32. -/
def WORD : Nat := 2 ^ 32

/-- Unsigned 32-bit addition. -/
def uadd (a b : Nat) : Nat := (a + b) % WORD

/-- Unsigned 32-bit subtraction. -/
def usub (a b : Nat) : Nat := (a % WORD + WORD - b % WORD) % WORD

/-- `#define MAX_HISTORY_SIZE 102400`. -/
def MAX_HISTORY_SIZE : Nat := 102400

/-- `const char CMD_NEW_CLIENT[]`. -/
def CMD_NEW_CLIENT : Str := "@@NEW_CLIENT".toList
/-- `const char CMD_HISTORY_START[]`. -/
def CMD_HISTORY_START : Str := "@@HISTORY_START".toList
/-- `const char CMD_HISTORY_END[]`. -/
def CMD_HISTORY_END : Str := "@@HISTORY_END".toList
/-- `const char CMD_ACK[]`. -/
def CMD_ACK : Str := "@@ACK".toList

/-- `String(unsigned long)`: the decimal digits of a number. -/
def decimal (n : Nat) : Str := Nat.toDigits 10 n

/-- An IPv4 address: four octets. -/
structure IPAddress where
  o1 : Fin 256
  o2 : Fin 256
  o3 : Fin 256
  o4 : Fin 256
  deriving DecidableEq

/-- `IPAddress::toString()`: dotted decimal. -/
def IPAddress.toString (ip : IPAddress) : Str :=
  decimal ip.o1 ++ ['.'] ++ decimal ip.o2 ++ ['.'] ++ decimal ip.o3 ++ ['.'] ++ decimal ip.o4

/-- `IPAddress broadcast_ip(192, 168, 4, 255)`. -/
def broadcast_ip : IPAddress := ⟨192, 168, 4, 255⟩

/-- One datagram handed to `udp.endPacket()`: destination and bytes. -/
structure Datagram where
  dest : IPAddress
  data : Str
  deriving DecidableEq

/-- The globals of the sketch together with what it has emitted so far.
`udp_out` and `serial_out` list the datagrams sent and the lines printed,
oldest first; `local_ip` is `WiFi.localIP()`; `last_broadcast` is the static
local of the heartbeat. -/
structure Device where
  is_ap_mode : Bool
  local_ip : IPAddress
  message_history : Str
  history_size : Nat
  udp_out : List Datagram
  serial_out : List Str
  led_busy : Bool
  last_broadcast : Nat
  deriving DecidableEq

/-- `udp.beginPacket(ip, udp_port); udp.write(data); udp.endPacket();`. -/
def udp_send (st : Device) (ip : IPAddress) (data : Str) : Device :=
  { st with udp_out := st.udp_out ++ [⟨ip, data⟩] }

/-- `Serial.println(line)`. -/
def println (st : Device) (line : Str) : Device :=
  { st with serial_out := st.serial_out ++ [line] }

/-! ## History buffer (lines 64-81) -/

/-- The `while` loop of `add_to_history` (lines 69-76) for a capacity `cap`;
`fuel` bounds the iterations left and is the length of the buffer at the call. -/
def evict_loop (cap msg_size : Nat) : Nat → Device → Device
  | 0, st => st
  | fuel + 1, st =>
    if uadd st.history_size msg_size > cap ∧ st.message_history.length > 0 then
      let pos := WString.indexOfChar st.message_history '\n'
      if pos = -1 then st
      else
        let remove_size := (pos + 1).toNat % WORD
        evict_loop cap msg_size fuel
          { st with
            message_history := WString.substringFrom st.message_history (pos + 1).toNat
            history_size := usub st.history_size remove_size }
    else st

/-- The body of `add_to_history` with the capacity as a parameter. -/
def add_to_history_cap (cap : Nat) (st : Device) (message : Str) : Device :=
  let msg_size := uadd message.length 1
  let st1 := evict_loop cap msg_size st.message_history.length st
  { st1 with
    message_history := st1.message_history ++ (message ++ ['\n'])
    history_size := uadd st1.history_size msg_size }

/-- `void add_to_history(const String& message)`. -/
def add_to_history (st : Device) (message : Str) : Device :=
  add_to_history_cap MAX_HISTORY_SIZE st message

/-! ## History replay (lines 84-105) -/

/-- The chunking `while` loop of `send_history` (lines 92-100); `fuel` bounds
the iterations left and is the length of the buffer at the call. -/
def chunk_loop (client_ip : IPAddress) : Nat → Device → Nat → Device
  | 0, st, _ => st
  | fuel + 1, st, start_index =>
    if start_index < st.message_history.length then
      let chunk := WString.substring st.message_history start_index (start_index + 500)
      chunk_loop client_ip fuel (udp_send st client_ip chunk) (start_index + chunk.length)
    else st

/-- `void send_history(IPAddress client_ip)`. -/
def send_history (st : Device) (client_ip : IPAddress) : Device :=
  let st := println st ("Sending history to ".toList ++ client_ip.toString)
  let st := udp_send st client_ip CMD_HISTORY_START
  let st := chunk_loop client_ip st.message_history.length st 0
  udp_send st client_ip CMD_HISTORY_END

/-- `void broadcast_message(const String& message)`. -/
def broadcast_message (st : Device) (message : Str) : Device :=
  { udp_send st broadcast_ip message with led_busy := !st.led_busy }

/-- `void send_ack(IPAddress sender_ip, const String& msg_id)`. -/
def send_ack (st : Device) (sender_ip : IPAddress) (msg_id : Str) : Device :=
  let ack_msg := CMD_ACK ++ " ".toList ++ msg_id
  udp_send st sender_ip ack_msg

/-! ## The control loop (lines 150-269) -/

/-- Envelope decoding, lines 204-209 and again 233-238: the two marker
searches, the test `id_start != -1 && id_end != -1`, and the two substrings. -/
def decode_envelope (message : Str) : Option (Str × Str) :=
  let id_start := WString.indexOf message "@@".toList
  let id_end := WString.indexOfFrom message "@@".toList (id_start + 2).toNat
  if id_start ≠ -1 ∧ id_end ≠ -1 then
    let msg_id := WString.substring message (id_start + 2).toNat id_end.toNat
    let actual_msg := WString.substringFrom message (id_end + 2).toNat
    some (msg_id, actual_msg)
  else none

/-- Operator input, lines 152-176: `input` is the line `readStringUntil`
returned and `now` the value `millis()` returns at line 162. -/
def loop_serial (st : Device) (input : Str) (now : Nat) : Device :=
  let input := WString.trim input
  if input.length > 0 then
    let formatted_msg :=
      if st.is_ap_mode then "[AP]: ".toList ++ input
      else "[".toList ++ st.local_ip.toString ++ "]: ".toList ++ input
    let msg_id := decimal now ++ "-".toList ++
      (if st.is_ap_mode then "AP".toList else st.local_ip.toString)
    let full_msg := "@@".toList ++ msg_id ++ "@@".toList ++ formatted_msg
    let st := add_to_history st formatted_msg
    let st := broadcast_message st full_msg
    let st := println st (">> ".toList ++ formatted_msg)
    if !st.is_ap_mode then println st "Waiting for ACKs...".toList else st
  else st

/-- Inbound dispatch, lines 189-249: `message` is the `String` built from the
receive buffer at line 186 (see `receive`) and `remote_ip` is `udp.remoteIP()`. -/
def loop_udp (st : Device) (message : Str) (remote_ip : IPAddress) : Device :=
  if st.is_ap_mode then
    if message = CMD_NEW_CLIENT then
      let st := println st ("New client: ".toList ++ remote_ip.toString)
      let st := send_history st remote_ip
      let st := add_to_history st ("System: ".toList ++ remote_ip.toString ++ " joined".toList)
      broadcast_message st ("System: ".toList ++ remote_ip.toString ++ " joined".toList)
    else if WString.startsWith message CMD_ACK then
      let msg_id := WString.substringFrom message (CMD_ACK.length + 1)
      println st ("ACK from ".toList ++ remote_ip.toString ++ " for: ".toList ++ msg_id)
    else
      match decode_envelope message with
      | some (msg_id, actual_msg) =>
        let st := add_to_history st actual_msg
        let st := broadcast_message st message
        send_ack st remote_ip msg_id
      | none => st
  else
    if WString.startsWith message CMD_HISTORY_START then
      println st "Receiving history...".toList
    else if WString.startsWith message CMD_HISTORY_END then
      println st "History received".toList
    else if WString.startsWith message CMD_ACK then
      let msg_id := WString.substringFrom message (CMD_ACK.length + 1)
      println st ("ACK received for: ".toList ++ msg_id)
    else if message ≠ CMD_NEW_CLIENT then
      match decode_envelope message with
      | some (msg_id, actual_msg) =>
        if !WString.startsWith actual_msg ("[".toList ++ st.local_ip.toString ++ "]".toList) then
          let st := println st actual_msg
          send_ack st remote_ip msg_id
        else st
      | none => st
    else st

/-- The receive step, lines 179-186: an empty datagram is not read
(`parsePacket` returns 0); otherwise `udp.read` puts at most 511 bytes into
`buffer`, a NUL is written behind them, and `String(buffer)` holds the bytes
up to the first NUL. -/
def receive (datagram : Str) : Option Str :=
  if datagram.length = 0 then none
  else some ((datagram.take 511).takeWhile (fun c => c != '\x00'))

/-- One inbound datagram through `loop`, lines 179-251: the receive step, then
the dispatch on the received text. -/
def loop_packet (st : Device) (datagram : Str) (remote_ip : IPAddress) : Device :=
  match receive datagram with
  | some message => loop_udp st message remote_ip
  | none => st

/-- Coordinator heartbeat, lines 254-266: `t1`, `t2`, `t3` are what the three
calls of `millis()` return (the test, the update of `last_broadcast`, the id). -/
def loop_heartbeat (st : Device) (t1 t2 t3 : Nat) : Device :=
  if st.is_ap_mode then
    if usub t1 st.last_broadcast > 30000 then
      let st := { st with last_broadcast := t2 }
      let msg_id := decimal t3 ++ "-AP".toList
      let heartbeat := "@@".toList ++ msg_id ++ "@@System: AP heartbeat".toList
      let st := println st heartbeat
      broadcast_message st heartbeat
    else st
  else st

/-- The device at power-up in a given role: nothing stored, nothing emitted. -/
def Device.init (ap : Bool) (ip : IPAddress) : Device :=
  { is_ap_mode := ap, local_ip := ip, message_history := [], history_size := 0,
    udp_out := [], serial_out := [], led_busy := false, last_broadcast := 0 }

/-- The eviction loop of `add_to_history` once more (lines 69-76), returning
instead of the final state two observations about the run: whether the `break`
of line 71 was taken, and whether `history_size -= remove_size` (line 75) was
done with `remove_size > history_size`, that is, wrapped below zero. -/
def evict_loop_ghost (cap msg_size : Nat) : Nat → Device → Bool × Bool
  | 0, _ => (false, false)
  | fuel + 1, st =>
    if uadd st.history_size msg_size > cap ∧ st.message_history.length > 0 then
      let pos := WString.indexOfChar st.message_history '\n'
      if pos = -1 then (true, false)
      else
        let remove_size := (pos + 1).toNat % WORD
        let r := evict_loop_ghost cap msg_size fuel
          { st with
            message_history := WString.substringFrom st.message_history (pos + 1).toNat
            history_size := usub st.history_size remove_size }
        (r.1, decide (st.history_size < remove_size) || r.2)
    else (false, false)

/-- The bytes of a sequence of lines, each followed by its terminator. -/
def joinLines (lines : List Str) : Str :=
  (lines.map (fun l => l ++ ['\n'])).flatten

/-- The consistency the sketch maintains between its two history globals: the
counter is the length of the buffer, and the buffer is a sequence of
terminated lines. -/
def Consistent (st : Device) : Prop :=
  st.history_size = st.message_history.length ∧
    (st.message_history = [] ∨ ['\n'] <:+ st.message_history)

instance (st : Device) : Decidable (Consistent st) := by
  unfold Consistent
  exact inferInstance

/-! ## Facts about the `String` members -/

namespace WString

theorem strchr_none {c : Char} {s : Str} : strchr c s = none ↔ c ∉ s := by
  induction s with
  | nil => simp [strchr]
  | cons x xs ih =>
    by_cases hx : x = c
    · simp [strchr, hx]
    · have hx2 : ¬ c = x := fun h => hx h.symm
      simp [strchr, hx, hx2, ih]

theorem strchr_some {c : Char} {s : Str} {i : Nat} (h : strchr c s = some i) :
    ∃ pre post, s = pre ++ c :: post ∧ c ∉ pre ∧ i = pre.length := by
  induction s generalizing i with
  | nil => simp [strchr] at h
  | cons x xs ih =>
    by_cases hx : x = c
    · simp [strchr, hx] at h
      exact ⟨[], xs, by simp [hx], by simp, by simp [← h]⟩
    · simp only [strchr, hx, if_false, Option.map_eq_some'] at h
      obtain ⟨j, hj, rfl⟩ := h
      obtain ⟨pre, post, hs, hpre, rfl⟩ := ih hj
      refine ⟨x :: pre, post, by simp [hs], ?_, by simp⟩
      simp only [List.mem_cons, not_or]
      exact ⟨fun h => hx h.symm, hpre⟩

theorem substring_eq (s : Str) {l r : Nat} (h : l ≤ r) :
    substring s l r = (s.take r).drop l := by
  unfold substring
  have h1 : ¬ l > r := by omega
  simp only [h1, if_false]
  by_cases hl : l ≥ s.length
  · simp only [hl, if_true]
    symm
    apply List.drop_eq_nil_of_le
    simp only [List.length_take]
    omega
  · simp only [hl, if_false]
    by_cases hr : r > s.length
    · simp only [hr, if_true]
      rw [List.take_of_length_le (le_refl _), List.take_of_length_le (by omega)]
    · simp only [hr, if_false]

theorem substringFrom_eq_drop (s : Str) (k : Nat) : substringFrom s k = s.drop k := by
  unfold substringFrom
  by_cases hk : k ≤ s.length
  · rw [substring_eq s hk, List.take_of_length_le (le_refl _)]
  · unfold substring
    have h1 : k > s.length := by omega
    have h2 : s.length ≥ s.length := le_refl _
    simp only [h1, if_true, h2]
    symm
    apply List.drop_eq_nil_of_le
    omega

/-- A successful `indexOf('\n')` splits the string at its first line end. -/
theorem indexOfChar_found {s : Str} {c : Char} (h : indexOfChar s c ≠ -1) :
    ∃ line rest, s = line ++ c :: rest ∧ c ∉ line ∧
      indexOfChar s c = (line.length : Int) := by
  unfold indexOfChar indexOfCharFrom at h ⊢
  by_cases h0 : 0 ≥ s.length
  · simp [h0] at h
  · simp only [h0, if_false, List.drop_zero] at h ⊢
    cases hs : strchr c s with
    | none => simp [hs] at h
    | some i =>
      obtain ⟨pre, post, h1, h2, h3⟩ := strchr_some hs
      exact ⟨pre, post, h1, h2, by simp [h3]⟩

/-- `indexOf(c)` fails exactly on the strings without `c`. -/
theorem indexOfChar_eq_neg_one {s : Str} {c : Char} :
    indexOfChar s c = -1 ↔ c ∉ s := by
  unfold indexOfChar indexOfCharFrom
  by_cases h0 : 0 ≥ s.length
  · have : s = [] := List.length_eq_zero.mp (by omega)
    simp [this]
  · simp only [h0, if_false, List.drop_zero]
    cases hs : strchr c s with
    | none => simpa using strchr_none.mp hs
    | some i =>
      have hm : c ∈ s := by
        by_contra hc
        rw [strchr_none.mpr hc] at hs
        cases hs
      simp only [hm, not_true_eq_false, iff_false]
      omega

end WString

/-! ## The eviction loop -/

theorem strchr_append {c : Char} (line rest : Str) (h : c ∉ line) :
    WString.strchr c (line ++ c :: rest) = some line.length := by
  induction line with
  | nil => simp [WString.strchr]
  | cons x xs ih =>
    simp only [List.mem_cons, not_or] at h
    have hx : ¬ x = c := fun e => h.1 e.symm
    simp [WString.strchr, hx, ih h.2]

theorem indexOfChar_append {c : Char} (line rest : Str) (h : c ∉ line) :
    WString.indexOfChar (line ++ c :: rest) c = (line.length : Int) := by
  unfold WString.indexOfChar WString.indexOfCharFrom
  have h0 : ¬ 0 ≥ (line ++ c :: rest).length := by simp
  simp only [h0, if_false, List.drop_zero, strchr_append line rest h]
  simp

/-- The loop ends at once when its condition is false. -/
theorem evict_loop_stop (cap m fuel : Nat) (st : Device)
    (h : ¬ (uadd st.history_size m > cap ∧ st.message_history.length > 0)) :
    evict_loop cap m fuel st = st := by
  cases fuel with
  | zero => rfl
  | succ n => simp only [evict_loop, h, if_false]

/-- The loop ends at once when the buffer has no line terminator (`break`). -/
theorem evict_loop_break (cap m fuel : Nat) (st : Device)
    (h : '\n' ∉ st.message_history) : evict_loop cap m fuel st = st := by
  cases fuel with
  | zero => rfl
  | succ n =>
    have hp : WString.indexOfChar st.message_history '\n' = -1 :=
      WString.indexOfChar_eq_neg_one.mpr h
    simp only [evict_loop, hp, if_true, ite_self]

/-- One iteration that evicts the leading line. -/
theorem evict_loop_evict (cap m fuel : Nat) (st : Device) (line rest : Str)
    (hs : st.message_history = line ++ '\n' :: rest) (hl : '\n' ∉ line)
    (hc : uadd st.history_size m > cap) :
    evict_loop cap m (fuel + 1) st =
      evict_loop cap m fuel
        { st with
          message_history := rest
          history_size := usub st.history_size ((line.length + 1) % WORD) } := by
  have hlen : st.message_history.length > 0 := by simp [hs]
  have hp : WString.indexOfChar st.message_history '\n' = (line.length : Int) := by
    rw [hs]; exact indexOfChar_append line rest hl
  have hne : ¬ ((line.length : Int) = -1) := by omega
  have htn : ((line.length : Int) + 1).toNat = line.length + 1 := by omega
  have hd : WString.substringFrom st.message_history (line.length + 1) = rest := by
    rw [WString.substringFrom_eq_drop, hs]
    simp
  simp only [evict_loop, hc, hlen, and_self, if_true, hp, hne, if_false, htn, hd]

/-- Every byte string either has no `c` or splits at its first `c`. -/
theorem split_first (c : Char) (s : Str) :
    c ∉ s ∨ ∃ line rest, s = line ++ c :: rest ∧ c ∉ line := by
  by_cases h : c ∈ s
  · exact Or.inr (List.eq_append_cons_of_mem h)
  · exact Or.inl h

/-- The bound on the iterations is never what ends the eviction loop: any
bound that is at least the length of the buffer gives the same result. -/
theorem evict_loop_fuel (cap m : Nat) : ∀ (fuel fuel2 : Nat) (st : Device),
    st.message_history.length ≤ fuel → st.message_history.length ≤ fuel2 →
    evict_loop cap m fuel st = evict_loop cap m fuel2 st := by
  intro fuel
  induction fuel with
  | zero =>
    intro fuel2 st h1 _
    have hc : ¬ (uadd st.history_size m > cap ∧ st.message_history.length > 0) := by omega
    rw [evict_loop_stop cap m 0 st hc, evict_loop_stop cap m fuel2 st hc]
  | succ n ih =>
    intro fuel2 st h1 h2
    by_cases hc : uadd st.history_size m > cap ∧ st.message_history.length > 0
    · rcases split_first '\n' st.message_history with hn | ⟨line, rest, hs, hl⟩
      · rw [evict_loop_break cap m _ st hn, evict_loop_break cap m _ st hn]
      · have hlen : st.message_history.length = line.length + 1 + rest.length := by
          simp [hs]; omega
        cases fuel2 with
        | zero => omega
        | succ k =>
          rw [evict_loop_evict cap m n st line rest hs hl hc.1,
            evict_loop_evict cap m k st line rest hs hl hc.1]
          apply ih
          · simp only; omega
          · simp only; omega
    · rw [evict_loop_stop cap m _ st hc, evict_loop_stop cap m fuel2 st hc]

/-- What the eviction loop computes: it drops a prefix `D` of whole lines,
lowers the counter by as many bytes (in 32-bit arithmetic), touches nothing
else, and ends with room for the message, or an empty buffer, or a buffer
without a line terminator. -/
theorem evict_loop_spec (cap m : Nat) : ∀ (fuel : Nat) (st : Device),
    st.message_history.length ≤ fuel →
    ∃ D S : Str, ∃ n : Nat,
      st.message_history = D ++ S ∧
      (D = [] ∨ ['\n'] <:+ D) ∧
      evict_loop cap m fuel st = { st with message_history := S, history_size := n } ∧
      (n + D.length) % WORD = st.history_size % WORD ∧
      (D = [] → n = st.history_size) ∧
      (D ≠ [] → n < WORD) ∧
      (uadd n m ≤ cap ∨ S = [] ∨ '\n' ∉ S) := by
  intro fuel
  induction fuel with
  | zero =>
    intro st h
    have hc : ¬ (uadd st.history_size m > cap ∧ st.message_history.length > 0) := by omega
    have he : st.message_history = [] := List.length_eq_zero.mp (by omega)
    exact ⟨[], st.message_history, st.history_size, by simp, Or.inl rfl,
      by rw [evict_loop_stop cap m 0 st hc], by simp, fun _ => rfl, fun h => absurd rfl h,
      Or.inr (Or.inl he)⟩
  | succ k ih =>
    intro st h
    by_cases hc : uadd st.history_size m > cap ∧ st.message_history.length > 0
    · rcases split_first '\n' st.message_history with hn | ⟨line, rest, hs, hl⟩
      · exact ⟨[], st.message_history, st.history_size, by simp, Or.inl rfl,
          by rw [evict_loop_break cap m _ st hn], by simp, fun _ => rfl,
          fun h => absurd rfl h, Or.inr (Or.inr hn)⟩
      · have hlen : st.message_history.length = line.length + 1 + rest.length := by
          simp [hs]; omega
        obtain ⟨D, S, n, h1, h2, h3, h4, h5, h6, h7⟩ :=
          ih { st with
               message_history := rest
               history_size := usub st.history_size ((line.length + 1) % WORD) }
            (by simp only; omega)
        simp only at h1 h3 h4 h5 h6
        refine ⟨line ++ '\n' :: D, S, n, ?_, Or.inr ?_, ?_, ?_, ?_, ?_, h7⟩
        · rw [hs, h1]; simp
        · rcases h2 with rfl | ⟨t, ht⟩
          · exact ⟨line, by simp⟩
          · exact ⟨line ++ '\n' :: t, by rw [← ht]; simp⟩
        · rw [evict_loop_evict cap m k st line rest hs hl hc.1, h3]
        · have e : (line ++ '\n' :: D).length = line.length + 1 + D.length := by
            simp; omega
          rw [e]
          simp only [usub, WORD] at h4 ⊢
          omega
        · intro h; simp at h
        · intro _
          by_cases hD : D = []
          · rw [h5 hD]
            simp only [usub]
            exact Nat.mod_lt _ (by simp [WORD])
          · exact h6 hD
    · exact ⟨[], st.message_history, st.history_size, by simp, Or.inl rfl,
        by rw [evict_loop_stop cap m _ st hc], by simp, fun _ => rfl,
        fun h => absurd rfl h, by
          by_cases hl : st.message_history.length > 0
          · exact Or.inl (by omega)
          · exact Or.inr (Or.inl (List.length_eq_zero.mp (by omega)))⟩

/-! ## The history buffer invariant -/

/-- A non-empty tail of a string that ends with a line terminator ends with it too. -/
theorem suffix_of_split {B D S : Str} (hB : B = D ++ S) (hn : ['\n'] <:+ B) (hS : S ≠ []) :
    ['\n'] <:+ S := by
  obtain ⟨t, ht⟩ := hn
  rcases List.eq_nil_or_concat S with h | ⟨S2, x, hx⟩
  · exact absurd h hS
  · rw [hB, hx, List.concat_eq_append, ← List.append_assoc] at ht
    have := List.append_inj_right' ht (by simp)
    exact ⟨S2, by rw [hx, List.concat_eq_append, this]⟩

/-- A string that ends with a line terminator contains one. -/
theorem mem_of_suffix {S : Str} (h : ['\n'] <:+ S) : '\n' ∈ S := by
  obtain ⟨t, ht⟩ := h
  rw [← ht]; simp

/-- One append keeps the buffer consistent and within a capacity `cap`,
provided the line fits the capacity. -/
theorem add_to_history_cap_inv (cap : Nat) (hcap : cap < 2 ^ 31) (st : Device)
    (message : Str) (hc : Consistent st) (hle : st.history_size ≤ cap)
    (hm : message.length + 1 ≤ cap) :
    Consistent (add_to_history_cap cap st message) ∧
      (add_to_history_cap cap st message).history_size ≤ cap := by
  obtain ⟨hsz, hnl⟩ := hc
  obtain ⟨D, S, n, h1, _, h3, h4, h5, h6, h7⟩ :=
    evict_loop_spec cap (uadd message.length 1) st.message_history.length st (le_refl _)
  have hmsz : uadd message.length 1 = message.length + 1 := by
    simp only [uadd, WORD]; omega
  have hlen : st.message_history.length = D.length + S.length := by rw [h1]; simp
  have hn : n = S.length := by
    by_cases hD : D = []
    · rw [h5 hD, hsz, hlen, hD]; simp
    · have := h6 hD
      simp only [WORD] at h4 this
      omega
  have hexit : uadd n (uadd message.length 1) ≤ cap ∨ S = [] := by
    rcases h7 with h | h | h
    · exact Or.inl h
    · exact Or.inr h
    · by_cases hS : S = []
      · exact Or.inr hS
      · rcases hnl with hB | hB
        · rw [hB] at h1
          have : S = [] := (List.append_eq_nil.mp h1.symm).2
          exact absurd this hS
        · exact absurd (mem_of_suffix (suffix_of_split h1 hB hS)) h
  have hfit : S.length + (message.length + 1) ≤ cap := by
    rcases hexit with h | h
    · rw [hn, hmsz] at h
      simp only [uadd, WORD] at h
      omega
    · rw [h]; simp; omega
  have hnew : uadd n (uadd message.length 1) = S.length + (message.length + 1) := by
    rw [hn, hmsz]; simp only [uadd, WORD]; omega
  simp only [add_to_history_cap, h3, hnew, Consistent]
  refine ⟨⟨by simp, Or.inr ⟨S ++ message, by simp⟩⟩, hfit⟩

/-- Appends of lines that fit keep the buffer consistent and within the
capacity, from any consistent start within the capacity. -/
theorem foldl_add_to_history_inv (payloads : List Str)
    (hp : ∀ p ∈ payloads, p.length + 1 ≤ MAX_HISTORY_SIZE) :
    ∀ st : Device, Consistent st → st.history_size ≤ MAX_HISTORY_SIZE →
      Consistent (payloads.foldl add_to_history st) ∧
        (payloads.foldl add_to_history st).history_size ≤ MAX_HISTORY_SIZE := by
  induction payloads with
  | nil => intro st h1 h2; exact ⟨h1, h2⟩
  | cons p ps ih =>
    intro st h1 h2
    have hstep := add_to_history_cap_inv MAX_HISTORY_SIZE (by simp [MAX_HISTORY_SIZE]) st p
      h1 h2 (hp p (by simp))
    simp only [List.foldl_cons]
    exact ih (fun q hq => hp q (by simp [hq])) _ hstep.1 hstep.2

/-- C1. From the empty history buffer (`message_history = ""`, `history_size = 0`),
along every sequence of `add_to_history` calls whose payloads each satisfy
`len(payload) + 1 ≤ MAX_HISTORY_SIZE`, the counter `history_size` is at most
`MAX_HISTORY_SIZE` after every call (after the first `k` calls, for every `k`). -/
theorem history_size_le_capacity (st0 : Device) (payloads : List Str)
    (hbuf : st0.message_history = []) (hsize : st0.history_size = 0)
    (hfit : ∀ p ∈ payloads, p.length + 1 ≤ MAX_HISTORY_SIZE) (k : Nat) :
    ((payloads.take k).foldl add_to_history st0).history_size ≤ MAX_HISTORY_SIZE := by
  have h0 : Consistent st0 := ⟨by rw [hbuf, hsize]; rfl, Or.inl hbuf⟩
  exact (foldl_add_to_history_inv (payloads.take k)
    (fun p hp => hfit p (List.mem_of_mem_take hp)) st0 h0 (by rw [hsize]; exact Nat.zero_le _)).2

/-- C1 at a concrete run: three appends from the empty buffer of a coordinator. -/
theorem history_size_le_capacity_witness :
    (∀ p ∈ ["System: AP started".toList, "[AP]: hello".toList, "hi".toList],
        p.length + 1 ≤ MAX_HISTORY_SIZE) ∧
      ((["System: AP started".toList, "[AP]: hello".toList, "hi".toList].take 2).foldl
        add_to_history (Device.init true broadcast_ip)).history_size ≤ MAX_HISTORY_SIZE :=
  ⟨by decide,
   history_size_le_capacity (Device.init true broadcast_ip)
    ["System: AP started".toList, "[AP]: hello".toList, "hi".toList] rfl rfl (by decide) 2⟩

/-- What one append does to the two history globals, in any state: a prefix
`D` of whole lines is dropped, the line is appended to what is kept, and the
counter moves by the same amounts in 32-bit arithmetic. -/
theorem add_to_history_cap_spec (cap : Nat) (st : Device) (message : Str) :
    ∃ D S : Str,
      st.message_history = D ++ S ∧
      (D = [] ∨ ['\n'] <:+ D) ∧
      (add_to_history_cap cap st message).message_history = S ++ (message ++ ['\n']) ∧
      ((add_to_history_cap cap st message).history_size + D.length) % WORD
        = (st.history_size + (message.length + 1)) % WORD ∧
      (add_to_history_cap cap st message).history_size < WORD := by
  obtain ⟨D, S, n, h1, h2, h3, h4, _, _, _⟩ :=
    evict_loop_spec cap (uadd message.length 1) st.message_history.length st (le_refl _)
  refine ⟨D, S, h1, h2, ?_, ?_, ?_⟩
  · simp only [add_to_history_cap, h3]
  · simp only [add_to_history_cap, h3]
    simp only [uadd, WORD] at h4 ⊢
    omega
  · simp only [add_to_history_cap, h3]
    exact Nat.mod_lt _ (by simp [WORD])

/-- C4. Eviction removes whole lines only: for every history buffer `B` that is
empty or ends with `'\n'` (whatever the counter holds) and every payload `p`,
the buffer after `add_to_history(p)` is `S + p + "\n"` where `B = D + S` and the
dropped prefix `D` is empty or ends with `'\n'`; the part `S` that is kept is
then itself empty or a sequence of whole lines of `B`. -/
theorem eviction_whole_lines (st : Device) (p : Str)
    (hB : st.message_history = [] ∨ ['\n'] <:+ st.message_history) :
    ∃ D S : Str,
      st.message_history = D ++ S ∧
      (D = [] ∨ ['\n'] <:+ D) ∧
      (add_to_history st p).message_history = S ++ p ++ ['\n'] ∧
      (S = [] ∨ ['\n'] <:+ S) := by
  obtain ⟨D, S, h1, h2, h3, _, _⟩ := add_to_history_cap_spec MAX_HISTORY_SIZE st p
  refine ⟨D, S, h1, h2, by rw [List.append_assoc]; exact h3, ?_⟩
  by_cases hS : S = []
  · exact Or.inl hS
  · rcases hB with hB | hB
    · rw [hB] at h1
      exact Or.inl (List.append_eq_nil.mp h1.symm).2
    · exact Or.inr (suffix_of_split h1 hB hS)

/-- C4 at a concrete buffer of two lines. -/
theorem eviction_whole_lines_witness :
    ("[AP]: one\n[AP]: two\n".toList = [] ∨ ['\n'] <:+ "[AP]: one\n[AP]: two\n".toList) ∧
    ∃ D S : Str,
      "[AP]: one\n[AP]: two\n".toList = D ++ S ∧
      (D = [] ∨ ['\n'] <:+ D) ∧
      (add_to_history
          { Device.init true broadcast_ip with
            message_history := "[AP]: one\n[AP]: two\n".toList, history_size := 20 }
          "[AP]: three".toList).message_history = S ++ "[AP]: three".toList ++ ['\n'] ∧
      (S = [] ∨ ['\n'] <:+ S) :=
  ⟨Or.inr (by decide),
   eviction_whole_lines
    { Device.init true broadcast_ip with
      message_history := "[AP]: one\n[AP]: two\n".toList, history_size := 20 }
    "[AP]: three".toList (Or.inr (by decide))⟩

/-- C8. `add_to_history` never rejects an append: in every state of the two
history globals and for every payload `p` (also one with
`len(p) + 1 > MAX_HISTORY_SIZE`), the buffer afterwards is what was kept of the
old one (`S`, after a dropped prefix `D`) followed by `p + "\n"` as its final
bytes, and `history_size` is the old value minus `len(D)`, the bytes evicted,
plus `len(p) + 1`: as a `size_t`, that is modulo `2^32`, and so exactly
whenever that number is a `size_t` value. -/
theorem add_to_history_never_rejects (st : Device) (p : Str) :
    ∃ D S : Str,
      st.message_history = D ++ S ∧
      (add_to_history st p).message_history = S ++ (p ++ ['\n']) ∧
      (p ++ ['\n']) <:+ (add_to_history st p).message_history ∧
      ((add_to_history st p).history_size : Int)
        = ((st.history_size : Int) - D.length + (p.length + 1)) % 2 ^ 32 ∧
      (D.length ≤ st.history_size → st.history_size - D.length + (p.length + 1) < 2 ^ 32 →
        (add_to_history st p).history_size
          = st.history_size - D.length + (p.length + 1)) := by
  obtain ⟨D, S, h1, _, h3, h4, h5⟩ := add_to_history_cap_spec MAX_HISTORY_SIZE st p
  refine ⟨D, S, h1, h3, ⟨S, h3.symm⟩, ?_, ?_⟩
  · simp only [add_to_history, WORD] at h4 h5 ⊢
    omega
  · intro hle hlt
    simp only [add_to_history, WORD] at h4 h5 ⊢
    omega

/-- C8 at an append of four bytes to a buffer of one line: nothing is evicted
and the counter goes from 9 to 13. -/
theorem add_to_history_never_rejects_witness :
    (add_to_history { Device.init true broadcast_ip with
        message_history := "[AP]: hi\n".toList, history_size := 9 } "yo!".toList).message_history
      = "[AP]: hi\n".toList ++ ("yo!".toList ++ ['\n']) ∧
    (add_to_history { Device.init true broadcast_ip with
        message_history := "[AP]: hi\n".toList, history_size := 9 } "yo!".toList).history_size
      = 9 - 0 + (3 + 1) := by
  obtain ⟨D, S, h1, h2, _, _, h5⟩ := add_to_history_never_rejects
    { Device.init true broadcast_ip with
      message_history := "[AP]: hi\n".toList, history_size := 9 } "yo!".toList
  have hS : S = "[AP]: hi\n".toList := by
    have := h2.symm.trans (show (add_to_history { Device.init true broadcast_ip with
      message_history := "[AP]: hi\n".toList, history_size := 9 } "yo!".toList).message_history
      = "[AP]: hi\n".toList ++ ("yo!".toList ++ ['\n']) by decide)
    exact List.append_cancel_right this
  have hD : D = [] := by
    rw [hS] at h1
    have : D ++ "[AP]: hi\n".toList = [] ++ "[AP]: hi\n".toList := h1.symm
    exact List.append_cancel_right this
  rw [hD] at h5
  exact ⟨by rw [h2, hS], h5 (by decide) (by decide)⟩

/-! ## Marker search and envelope decoding -/

/-- A match at the front is what `strstr` reports first. -/
theorem strstr_of_prefix {pat s : Str} (h : pat <+: s) : WString.strstr pat s = some 0 := by
  cases s with
  | nil =>
    have : pat = [] := List.prefix_nil.mp h
    simp [WString.strstr, this]
  | cons x xs => simp [WString.strstr, h]

/-- A failed `strstr` means no offset carries a match. -/
theorem strstr_none {pat : Str} : ∀ {s : Str}, WString.strstr pat s = none →
    ∀ j, ¬ pat <+: s.drop j := by
  intro s
  induction s with
  | nil =>
    intro h j hp
    have hpat : pat = [] := by
      rw [List.drop_nil] at hp
      exact List.prefix_nil.mp hp
    simp [WString.strstr, hpat] at h
  | cons x xs ih =>
    intro h j
    by_cases hx : pat <+: x :: xs
    · simp [WString.strstr, hx] at h
    · simp only [WString.strstr, hx, if_false, Option.map_eq_none'] at h
      cases j with
      | zero => simpa using hx
      | succ k => simpa using ih h k

/-- A successful `strstr` reports the least offset that carries a match. -/
theorem strstr_some {pat : Str} : ∀ {s : Str} {i : Nat}, WString.strstr pat s = some i →
    pat <+: s.drop i ∧ ∀ j, j < i → ¬ pat <+: s.drop j := by
  intro s
  induction s with
  | nil =>
    intro i h
    by_cases hp : pat = []
    · simp only [WString.strstr, hp, if_true, Option.some.injEq] at h
      subst h
      exact ⟨by simp [hp], fun j hj => absurd hj (Nat.not_lt_zero j)⟩
    · simp [WString.strstr, hp] at h
  | cons x xs ih =>
    intro i h
    by_cases hx : pat <+: x :: xs
    · simp only [WString.strstr, hx, if_true, Option.some.injEq] at h
      subst h
      exact ⟨by simpa using hx, fun j hj => absurd hj (Nat.not_lt_zero j)⟩
    · simp only [WString.strstr, hx, if_false, Option.map_eq_some'] at h
      obtain ⟨k, hk, rfl⟩ := h
      obtain ⟨h1, h2⟩ := ih hk
      refine ⟨by simpa using h1, ?_⟩
      intro j hj
      cases j with
      | zero => simpa using hx
      | succ j2 => simpa using h2 j2 (by omega)

/-- An occurrence somewhere is a match at some offset. -/
theorem infix_iff_prefix_drop {pat s : Str} : pat <:+: s ↔ ∃ j, pat <+: s.drop j := by
  constructor
  · rintro ⟨a, b, h⟩
    refine ⟨a.length, b, ?_⟩
    rw [← h, List.append_assoc, List.drop_left]
  · rintro ⟨j, b, h⟩
    refine ⟨s.take j, b, ?_⟩
    rw [List.append_assoc, h, List.take_append_drop]

/-- `indexOf(pat, k)` is `-1` when `pat` does not occur from offset `k` on. -/
theorem indexOfFrom_absent {s pat : Str} {k : Nat} (h : ¬ pat <:+: s.drop k) :
    WString.indexOfFrom s pat k = -1 := by
  unfold WString.indexOfFrom
  by_cases hk : k ≥ s.length
  · simp [hk]
  · simp only [hk, if_false]
    cases hs : WString.strstr pat (s.drop k) with
    | none => rfl
    | some i =>
      exact absurd (infix_iff_prefix_drop.mpr ⟨i, (strstr_some hs).1⟩) h

/-- `indexOf(pat, k)` is the first offset from `k` on that carries a match. -/
theorem indexOfFrom_first {s pat : Str} {k i : Nat} (hpat : pat ≠ [])
    (h1 : pat <+: s.drop (k + i)) (h2 : ∀ j, j < i → ¬ pat <+: s.drop (k + j)) :
    WString.indexOfFrom s pat k = ((k + i : Nat) : Int) := by
  unfold WString.indexOfFrom
  have hlen : k + i < s.length := by
    by_contra hc
    rw [List.drop_eq_nil_of_le (by omega)] at h1
    exact hpat (List.prefix_nil.mp h1)
  have hk : ¬ k ≥ s.length := by omega
  simp only [hk, if_false]
  cases hs : WString.strstr pat (s.drop k) with
  | none => exact absurd (by simpa [List.drop_drop, Nat.add_comm] using h1) (strstr_none hs i)
  | some i2 =>
    obtain ⟨h3, h4⟩ := strstr_some hs
    have e : i2 = i := by
      rcases Nat.lt_trichotomy i2 i with hlt | heq | hgt
      · exact absurd (by simpa [List.drop_drop, Nat.add_comm] using h3) (h2 i2 hlt)
      · exact heq
      · exact absurd (by simpa [List.drop_drop, Nat.add_comm] using h1) (h4 i hgt)
    rw [e]

/-- When `pat` does not occur in `id` and `id` does not end with `'@'`, the
first `"@@"` of `id + "@@" + payload` is the one right after `id`. -/
theorem marker_after_id (id payload : Str) (h1 : ¬ ['@', '@'] <:+: id)
    (h2 : ¬ ['@'] <:+ id) :
    ['@', '@'] <+: (id ++ ['@', '@'] ++ payload).drop id.length ∧
      ∀ j, j < id.length → ¬ ['@', '@'] <+: (id ++ ['@', '@'] ++ payload).drop j := by
  constructor
  · rw [List.append_assoc, List.drop_left]
    exact List.prefix_append _ _
  · intro j hj hp
    obtain ⟨b, hb⟩ := hp
    have hsplit : id ++ ['@', '@'] ++ payload
        = id.take j ++ (id.drop j ++ ['@', '@'] ++ payload) := by
      simp [← List.append_assoc, List.take_append_drop]
    rw [hsplit, List.drop_left' (by simp; omega)] at hb
    -- the match starts inside `id`, at its byte `j`
    cases hd : id.drop j with
    | nil =>
      have : id.length ≤ j := List.drop_eq_nil_iff.mp hd
      omega
    | cons x xs =>
      rw [hd] at hb
      simp only [List.cons_append, List.cons.injEq] at hb
      obtain ⟨hx, hrest⟩ := hb
      cases xs with
      | nil =>
        apply h2
        refine ⟨id.take j, ?_⟩
        have := List.take_append_drop j id
        rw [hd, ← hx] at this
        exact this
      | cons y ys =>
        simp only [List.cons_append, List.cons.injEq] at hrest
        apply h1
        refine ⟨id.take j, ys, ?_⟩
        have := List.take_append_drop j id
        rw [hd, ← hx, ← hrest.1] at this
        rw [List.append_assoc]
        exact this

/-- The middle of three concatenated strings, cut out by its two offsets. -/
theorem take_drop_mid (a b c : Str) :
    ((a ++ b ++ c).take (a.length + b.length)).drop a.length = b := by
  rw [List.take_left' (List.length_append a b), List.drop_left]

/-- Decoding fails when `"@@"` does not occur at all. -/
theorem decode_envelope_no_marker {w : Str} (h : ¬ "@@".toList <:+: w) :
    decode_envelope w = none := by
  have h0 : WString.indexOf w "@@".toList = -1 := by
    unfold WString.indexOf
    exact indexOfFrom_absent (by simpa using h)
  simp only [decode_envelope, h0]
  simp

/-- Decoding fails when `"@@"` does not occur again after the first marker. -/
theorem decode_envelope_no_second {w : Str} {i : Nat} (h1 : "@@".toList <+: w.drop i)
    (h2 : ∀ j, j < i → ¬ "@@".toList <+: w.drop j)
    (h3 : ¬ "@@".toList <:+: w.drop (i + 2)) : decode_envelope w = none := by
  have h0 : WString.indexOf w "@@".toList = ((0 + i : Nat) : Int) := by
    unfold WString.indexOf
    exact indexOfFrom_first (by decide) (by simpa using h1) (by simpa using h2)
  have h4 : ((((0 + i : Nat) : Int)) + 2).toNat = i + 2 := by omega
  have h5 : WString.indexOfFrom w "@@".toList (i + 2) = -1 := indexOfFrom_absent h3
  simp only [decode_envelope, h0, h4, h5]
  simp

/-- C2 (amended). For every `id` that does not contain `"@@"` and does not end
with `'@'`, and every payload, decoding the wire string
`"@@" + id + "@@" + payload` succeeds and returns exactly `(id, payload)`. -/
theorem decode_encode_roundtrip (id payload : Str) (hid : ¬ "@@".toList <:+: id)
    (hend : ¬ "@".toList <:+ id) :
    decode_envelope ("@@".toList ++ id ++ "@@".toList ++ payload) = some (id, payload) := by
  have hm : "@@".toList = ['@', '@'] := rfl
  have hw : "@@".toList ++ id ++ "@@".toList ++ payload
      = ['@', '@'] ++ (id ++ ['@', '@'] ++ payload) := by simp [hm]
  obtain ⟨m1, m2⟩ := marker_after_id id payload (by simpa [hm] using hid) hend
  have h0 : WString.indexOf ("@@".toList ++ id ++ "@@".toList ++ payload) "@@".toList
      = ((0 + 0 : Nat) : Int) := by
    unfold WString.indexOf
    apply indexOfFrom_first (by decide)
    · rw [hw]; exact List.prefix_append _ _
    · intro j hj; omega
  have h1 : WString.indexOfFrom ("@@".toList ++ id ++ "@@".toList ++ payload) "@@".toList 2
      = ((2 + id.length : Nat) : Int) := by
    apply indexOfFrom_first (by decide)
    · rw [hw, hm, ← List.drop_drop]
      exact m1
    · intro j hj
      rw [hw, hm, ← List.drop_drop]
      exact m2 j hj
  have e2 : ((((0 + 0 : Nat) : Int)) + 2).toNat = 2 := by decide
  have e3 : (((2 + id.length : Nat) : Int)).toNat = 2 + id.length := by omega
  have e4 : ((((2 + id.length : Nat) : Int)) + 2).toNat = 2 + id.length + 2 := by omega
  have c1 : ¬ (((0 + 0 : Nat) : Int) = -1) := by decide
  have c2 : ¬ (((2 + id.length : Nat) : Int) = -1) := by omega
  have s1 : WString.substring ("@@".toList ++ id ++ "@@".toList ++ payload) 2 (2 + id.length)
      = id := by
    rw [WString.substring_eq _ (by omega), List.append_assoc ("@@".toList ++ id)]
    exact take_drop_mid "@@".toList id _
  have s2 : WString.substringFrom ("@@".toList ++ id ++ "@@".toList ++ payload)
      (2 + id.length + 2) = payload := by
    rw [WString.substringFrom_eq_drop]
    exact List.drop_left' (by simp [hm]; omega)
  unfold decode_envelope
  simp only [h0, e2, h1, e3, e4, c1, c2, s1, s2, ne_eq, not_false_eq_true, and_self, if_true]

/-- C2 at the id of the specification's example. -/
theorem decode_encode_roundtrip_witness :
    (¬ "@@".toList <:+: "42-AP".toList) ∧ (¬ "@".toList <:+ "42-AP".toList) ∧
      decode_envelope ("@@".toList ++ "42-AP".toList ++ "@@".toList ++ "System: hi".toList)
        = some ("42-AP".toList, "System: hi".toList) :=
  ⟨by decide, by decide,
    decode_encode_roundtrip "42-AP".toList "System: hi".toList (by decide) (by decide)⟩

/-- C2 as stated fails: the id `"x@"` contains no `"@@"`, yet its wire string
`"@@x@@@p"` decodes to `("x", "@p")` and not to `("x@", "p")`. -/
theorem decode_encode_roundtrip_fails :
    (¬ "@@".toList <:+: "x@".toList) ∧
      decode_envelope ("@@".toList ++ "x@".toList ++ "@@".toList ++ "p".toList)
        = some ("x".toList, "@p".toList) ∧
      decode_envelope ("@@".toList ++ "x@".toList ++ "@@".toList ++ "p".toList)
        ≠ some ("x@".toList, "p".toList) := by
  decide

/-! ## Frame facts: what the history functions leave alone -/

/-- Putting back a device's own output fields changes nothing. -/
theorem Device.eta_udp_out (st : Device) : { st with udp_out := st.udp_out ++ [] } = st := by
  cases st; simp

/-- `add_to_history` touches only the two history globals. -/
theorem add_to_history_cap_frame (cap : Nat) (st : Device) (message : Str) :
    add_to_history_cap cap st message =
      { st with
        message_history := (add_to_history_cap cap st message).message_history
        history_size := (add_to_history_cap cap st message).history_size } := by
  obtain ⟨D, S, n, _, _, h3, _⟩ :=
    evict_loop_spec cap (uadd message.length 1) st.message_history.length st (le_refl _)
  simp only [add_to_history_cap, h3]

/-- The result of the eviction loop in the two history globals depends on
these two globals only. -/
theorem evict_loop_congr (cap m : Nat) : ∀ (fuel : Nat) (st st2 : Device),
    st.message_history = st2.message_history → st.history_size = st2.history_size →
    (evict_loop cap m fuel st).message_history = (evict_loop cap m fuel st2).message_history ∧
      (evict_loop cap m fuel st).history_size = (evict_loop cap m fuel st2).history_size := by
  intro fuel
  induction fuel with
  | zero => intro st st2 h1 h2; exact ⟨h1, h2⟩
  | succ k ih =>
    intro st st2 h1 h2
    by_cases hc : uadd st.history_size m > cap ∧ st.message_history.length > 0
    · have hc2 : uadd st2.history_size m > cap ∧ st2.message_history.length > 0 := by
        rw [← h1, ← h2]; exact hc
      rcases split_first '\n' st.message_history with hn | ⟨line, rest, hs, hl⟩
      · rw [evict_loop_break cap m _ st hn, evict_loop_break cap m _ st2 (h1 ▸ hn)]
        exact ⟨h1, h2⟩
      · rw [evict_loop_evict cap m k st line rest hs hl hc.1,
          evict_loop_evict cap m k st2 line rest (h1 ▸ hs) hl hc2.1]
        exact ih _ _ rfl (by simp only [h2])
    · have hc2 : ¬ (uadd st2.history_size m > cap ∧ st2.message_history.length > 0) := by
        rw [← h1, ← h2]; exact hc
      rw [evict_loop_stop cap m _ st hc, evict_loop_stop cap m _ st2 hc2]
      exact ⟨h1, h2⟩

/-- What `add_to_history` stores depends on the two history globals only. -/
theorem add_to_history_congr (st st2 : Device) (message : Str)
    (h1 : st.message_history = st2.message_history) (h2 : st.history_size = st2.history_size) :
    (add_to_history st message).message_history = (add_to_history st2 message).message_history ∧
      (add_to_history st message).history_size = (add_to_history st2 message).history_size := by
  obtain ⟨e1, e2⟩ := evict_loop_congr MAX_HISTORY_SIZE (uadd message.length 1)
    st.message_history.length st st2 h1 h2
  simp only [add_to_history, add_to_history_cap]
  rw [← h1]
  exact ⟨by rw [e1], by rw [e2]⟩

/-! ## The replay loop -/

/-- A piece cut from the front, followed by what lies behind it, is the whole. -/
theorem take_append_drop_length (n : Nat) (l : Str) :
    l.take n ++ l.drop (l.take n).length = l := by
  have h : l.drop (l.take n).length = l.drop n := by
    rw [List.length_take]
    by_cases hn : n ≤ l.length
    · rw [min_eq_left hn]
    · rw [min_eq_right (by omega), List.drop_eq_nil_of_le (le_refl _),
        List.drop_eq_nil_of_le (by omega)]
  rw [h, List.take_append_drop]

/-- What the chunking loop sends: pieces of 1 to 500 bytes whose
concatenation is the buffer from `start_index` on; nothing else changes. -/
theorem chunk_loop_spec (A : IPAddress) : ∀ (fuel : Nat) (st : Device) (start : Nat),
    st.message_history.length - start ≤ fuel →
    ∃ chunks : List Str,
      (∀ c ∈ chunks, 0 < c.length ∧ c.length ≤ 500) ∧
      chunks.flatten = st.message_history.drop start ∧
      chunk_loop A fuel st start =
        { st with udp_out := st.udp_out ++ chunks.map (fun c => Datagram.mk A c) } := by
  intro fuel
  induction fuel with
  | zero =>
    intro st start h
    refine ⟨[], by simp, ?_, ?_⟩
    · rw [List.drop_eq_nil_of_le (by omega)]; rfl
    · simp only [chunk_loop, List.map_nil]
      exact (Device.eta_udp_out st).symm
  | succ k ih =>
    intro st start h
    by_cases hlt : start < st.message_history.length
    · have hchunk : WString.substring st.message_history start (start + 500)
          = (st.message_history.drop start).take 500 := by
        rw [WString.substring_eq _ (by omega), List.drop_take]
        congr 1
        omega
      have hclen : ((st.message_history.drop start).take 500).length
          = min 500 (st.message_history.length - start) := by
        simp
      obtain ⟨chunks, c1, c2, c3⟩ :=
        ih (udp_send st A ((st.message_history.drop start).take 500))
          (start + ((st.message_history.drop start).take 500).length)
          (by simp only [udp_send, hclen]; omega)
      refine ⟨(st.message_history.drop start).take 500 :: chunks, ?_, ?_, ?_⟩
      · intro c hc
        rcases List.mem_cons.mp hc with rfl | hc
        · rw [hclen]; omega
        · exact c1 c hc
      · simp only [udp_send] at c2
        rw [List.flatten_cons, c2, ← List.drop_drop]
        exact take_append_drop_length 500 _
      · simp only [chunk_loop, hlt, if_true, hchunk, c3]
        simp [udp_send]
    · refine ⟨[], by simp, ?_, ?_⟩
      · rw [List.drop_eq_nil_of_le (by omega)]; rfl
      · simp only [chunk_loop, hlt, if_false, List.map_nil]
        exact (Device.eta_udp_out st).symm

/-- The bound on the iterations is never what ends the chunking loop: any
bound that is at least the number of bytes left gives the same result. -/
theorem chunk_loop_fuel (A : IPAddress) : ∀ (fuel fuel2 : Nat) (st : Device) (start : Nat),
    st.message_history.length - start ≤ fuel → st.message_history.length - start ≤ fuel2 →
    chunk_loop A fuel st start = chunk_loop A fuel2 st start := by
  intro fuel
  induction fuel with
  | zero =>
    intro fuel2 st start h1 _
    have hlt : ¬ start < st.message_history.length := by omega
    cases fuel2 with
    | zero => rfl
    | succ k => simp only [chunk_loop, hlt, if_false]
  | succ n ih =>
    intro fuel2 st start h1 h2
    by_cases hlt : start < st.message_history.length
    · cases fuel2 with
      | zero => omega
      | succ k =>
        have hchunk : WString.substring st.message_history start (start + 500)
            = (st.message_history.drop start).take 500 := by
          rw [WString.substring_eq _ (by omega), List.drop_take]
          congr 1
          omega
        have hclen : ((st.message_history.drop start).take 500).length
            = min 500 (st.message_history.length - start) := by
          simp
        simp only [chunk_loop, hlt, if_true, hchunk]
        apply ih
        · simp only [udp_send, hclen]; omega
        · simp only [udp_send, hclen]; omega
    · cases fuel2 with
      | zero => simp only [chunk_loop, hlt, if_false]
      | succ k => simp only [chunk_loop, hlt, if_false]

/-- What `send_history` does: one log line, then `"@@HISTORY_START"`, the
chunks and `"@@HISTORY_END"`, all to `client_ip`; the history is only read. -/
theorem send_history_spec (st : Device) (A : IPAddress) :
    ∃ chunks : List Str,
      (∀ c ∈ chunks, 0 < c.length ∧ c.length ≤ 500) ∧
      chunks.flatten = st.message_history ∧
      send_history st A =
        { st with
          serial_out := st.serial_out ++ ["Sending history to ".toList ++ A.toString]
          udp_out := st.udp_out ++ [Datagram.mk A CMD_HISTORY_START]
            ++ chunks.map (fun c => Datagram.mk A c) ++ [Datagram.mk A CMD_HISTORY_END] } := by
  obtain ⟨chunks, c1, c2, c3⟩ := chunk_loop_spec A st.message_history.length
    (udp_send (println st ("Sending history to ".toList ++ A.toString)) A CMD_HISTORY_START) 0
    (by simp [udp_send, println])
  refine ⟨chunks, c1, by simpa [udp_send, println] using c2, ?_⟩
  simp only [send_history]
  simp only [udp_send, println] at c3 ⊢
  rw [c3]

/-- `startsWith` is the prefix relation. -/
theorem startsWith_iff (s s2 : Str) : WString.startsWith s s2 = true ↔ s2 <+: s := by
  unfold WString.startsWith
  by_cases h : s.length < s2.length
  · simp only [h, if_true, Bool.false_eq_true, false_iff]
    intro hp
    have := hp.length_le
    omega
  · simp only [h, if_false, decide_eq_true_eq]

/-- `startsWith` is false exactly off the prefix relation. -/
theorem startsWith_eq_false_iff (s s2 : Str) :
    WString.startsWith s s2 = false ↔ ¬ s2 <+: s := by
  rw [← startsWith_iff, Bool.not_eq_true]

/-- `add_to_history` sends nothing. -/
theorem add_to_history_udp_out (st : Device) (message : Str) :
    (add_to_history st message).udp_out = st.udp_out := by
  rw [add_to_history, add_to_history_cap_frame]

/-- `add_to_history` prints nothing. -/
theorem add_to_history_serial_out (st : Device) (message : Str) :
    (add_to_history st message).serial_out = st.serial_out := by
  rw [add_to_history, add_to_history_cap_frame]

/-! ## The claims about the control loop -/

/-- C3. On a coordinator with history buffer `H`, handling `"@@NEW_CLIENT"` from
address `A` sends to `A`, in this order: `"@@HISTORY_START"`, then chunks of at
most 500 bytes each whose concatenation is `H` as it was before the join
notice, then `"@@HISTORY_END"`; the join notice is appended to the history and
broadcast only after these (the handler is the replay, then the append, then
the broadcast, and the broadcast is the last datagram). -/
theorem new_client_replay (st : Device) (A : IPAddress) (hap : st.is_ap_mode = true) :
    ∃ chunks : List Str,
      (∀ c ∈ chunks, c.length ≤ 500) ∧
      chunks.flatten = st.message_history ∧
      loop_udp st CMD_NEW_CLIENT A =
        broadcast_message
          (add_to_history
            (send_history (println st ("New client: ".toList ++ A.toString)) A)
            ("System: ".toList ++ A.toString ++ " joined".toList))
          ("System: ".toList ++ A.toString ++ " joined".toList) ∧
      (send_history (println st ("New client: ".toList ++ A.toString)) A).udp_out =
        st.udp_out ++ [Datagram.mk A CMD_HISTORY_START]
          ++ chunks.map (fun c => Datagram.mk A c) ++ [Datagram.mk A CMD_HISTORY_END] ∧
      (loop_udp st CMD_NEW_CLIENT A).udp_out =
        st.udp_out ++ [Datagram.mk A CMD_HISTORY_START]
          ++ chunks.map (fun c => Datagram.mk A c) ++ [Datagram.mk A CMD_HISTORY_END]
          ++ [Datagram.mk broadcast_ip ("System: ".toList ++ A.toString ++ " joined".toList)] ∧
      (loop_udp st CMD_NEW_CLIENT A).message_history =
        (add_to_history st ("System: ".toList ++ A.toString ++ " joined".toList)).message_history ∧
      (loop_udp st CMD_NEW_CLIENT A).history_size =
        (add_to_history st ("System: ".toList ++ A.toString ++ " joined".toList)).history_size := by
  obtain ⟨chunks, c1, c2, c3⟩ :=
    send_history_spec (println st ("New client: ".toList ++ A.toString)) A
  have hloop : loop_udp st CMD_NEW_CLIENT A =
      broadcast_message
        (add_to_history
          (send_history (println st ("New client: ".toList ++ A.toString)) A)
          ("System: ".toList ++ A.toString ++ " joined".toList))
        ("System: ".toList ++ A.toString ++ " joined".toList) := by
    simp only [loop_udp, hap, if_true]
  have hsent : (send_history (println st ("New client: ".toList ++ A.toString)) A).udp_out =
      st.udp_out ++ [Datagram.mk A CMD_HISTORY_START]
        ++ chunks.map (fun c => Datagram.mk A c) ++ [Datagram.mk A CMD_HISTORY_END] := by
    rw [c3]; rfl
  have hcongr := add_to_history_congr
    (send_history (println st ("New client: ".toList ++ A.toString)) A) st
    ("System: ".toList ++ A.toString ++ " joined".toList)
    (by rw [c3]; rfl) (by rw [c3]; rfl)
  refine ⟨chunks, fun c hc => (c1 c hc).2, by simpa [println] using c2, hloop, hsent, ?_, ?_, ?_⟩
  · rw [hloop]
    simp only [broadcast_message, udp_send]
    rw [add_to_history_udp_out, hsent]
  · rw [hloop]
    simp only [broadcast_message, udp_send]
    exact hcongr.1
  · rw [hloop]
    simp only [broadcast_message, udp_send]
    exact hcongr.2

/-- C3 at a coordinator that holds two lines, joined by 192.168.4.2. -/
theorem new_client_replay_witness :
    ({ Device.init true broadcast_ip with
        message_history := "System: AP started\n[AP]: hello\n".toList
        history_size := 31 } : Device).is_ap_mode = true ∧
    ∃ chunks : List Str,
      (∀ c ∈ chunks, c.length ≤ 500) ∧
      chunks.flatten = "System: AP started\n[AP]: hello\n".toList ∧
      (loop_udp { Device.init true broadcast_ip with
          message_history := "System: AP started\n[AP]: hello\n".toList
          history_size := 31 } CMD_NEW_CLIENT ⟨192, 168, 4, 2⟩).udp_out =
        [Datagram.mk ⟨192, 168, 4, 2⟩ CMD_HISTORY_START]
          ++ chunks.map (fun c => Datagram.mk ⟨192, 168, 4, 2⟩ c)
          ++ [Datagram.mk ⟨192, 168, 4, 2⟩ CMD_HISTORY_END]
          ++ [Datagram.mk broadcast_ip "System: 192.168.4.2 joined".toList] := by
  refine ⟨rfl, ?_⟩
  obtain ⟨chunks, h1, h2, _, _, h5, _⟩ :=
    new_client_replay { Device.init true broadcast_ip with
      message_history := "System: AP started\n[AP]: hello\n".toList
      history_size := 31 } ⟨192, 168, 4, 2⟩ rfl
  exact ⟨chunks, h1, h2, h5⟩

/-- The relay branch of the coordinator's dispatch, on a received text `w` that
is not `"@@NEW_CLIENT"`, does not start with `"@@ACK"` and decodes to
`(id, payload)`: `payload` is appended to the history, then `w` is broadcast,
then `"@@ACK " + id` is sent to `A`; nothing else is sent or printed. -/
theorem loop_udp_relay (st : Device) (w : Str) (A : IPAddress) (id payload : Str)
    (hap : st.is_ap_mode = true) (hnew : w ≠ CMD_NEW_CLIENT) (hack : ¬ CMD_ACK <+: w)
    (hdec : decode_envelope w = some (id, payload)) :
    loop_udp st w A = send_ack (broadcast_message (add_to_history st payload) w) A id ∧
      (loop_udp st w A).message_history = (add_to_history st payload).message_history ∧
      (loop_udp st w A).history_size = (add_to_history st payload).history_size ∧
      (loop_udp st w A).udp_out =
        st.udp_out ++ [Datagram.mk broadcast_ip w, Datagram.mk A ("@@ACK ".toList ++ id)] ∧
      (loop_udp st w A).serial_out = st.serial_out := by
  have hack2 : WString.startsWith w CMD_ACK = false := (startsWith_eq_false_iff w CMD_ACK).mpr hack
  have hloop : loop_udp st w A
      = send_ack (broadcast_message (add_to_history st payload) w) A id := by
    simp only [loop_udp, hap, if_true, hnew, if_false, hack2, Bool.false_eq_true, hdec]
  refine ⟨hloop, ?_, ?_, ?_, ?_⟩
  · rw [hloop]; rfl
  · rw [hloop]; rfl
  · rw [hloop]
    simp only [send_ack, broadcast_message, udp_send]
    rw [add_to_history_udp_out, List.append_assoc]
    rfl
  · rw [hloop]
    simp only [send_ack, broadcast_message, udp_send]
    exact add_to_history_serial_out st payload

/-- The message branch of the peer's dispatch, on a received text `w` that is
no control token and decodes to `(id, payload)`: with the own-address prefix
`"[" + P + "]"` on `payload` nothing changes; otherwise `payload` is printed and
`"@@ACK " + id` is sent to `R`, and nothing else. -/
theorem loop_udp_peer_message (st : Device) (w : Str) (R : IPAddress) (id payload : Str)
    (hpeer : st.is_ap_mode = false)
    (hstart : ¬ CMD_HISTORY_START <+: w) (hend : ¬ CMD_HISTORY_END <+: w)
    (hack : ¬ CMD_ACK <+: w) (hnew : w ≠ CMD_NEW_CLIENT)
    (hdec : decode_envelope w = some (id, payload)) :
    (("[".toList ++ st.local_ip.toString ++ "]".toList) <+: payload →
        loop_udp st w R = st) ∧
      (¬ ("[".toList ++ st.local_ip.toString ++ "]".toList) <+: payload →
        loop_udp st w R = send_ack (println st payload) R id ∧
        (loop_udp st w R).serial_out = st.serial_out ++ [payload] ∧
        (loop_udp st w R).udp_out = st.udp_out ++ [Datagram.mk R ("@@ACK ".toList ++ id)]) := by
  have h1 := (startsWith_eq_false_iff w CMD_HISTORY_START).mpr hstart
  have h2 := (startsWith_eq_false_iff w CMD_HISTORY_END).mpr hend
  have h3 := (startsWith_eq_false_iff w CMD_ACK).mpr hack
  constructor
  · intro hself
    have h4 := (startsWith_iff payload _).mpr hself
    simp only [loop_udp, hpeer, h1, h2, h3, hnew, hdec, h4, Bool.false_eq_true, if_false,
      ne_eq, not_false_eq_true, if_true, Bool.not_true]
  · intro hother
    have h4 := (startsWith_eq_false_iff payload _).mpr hother
    have hloop : loop_udp st w R = send_ack (println st payload) R id := by
      simp only [loop_udp, hpeer, h1, h2, h3, hnew, hdec, h4, Bool.false_eq_true, if_false,
        ne_eq, not_false_eq_true, if_true, Bool.not_false]
    refine ⟨hloop, ?_, ?_⟩
    · rw [hloop]; rfl
    · rw [hloop]; rfl

/-- The dispatch on a received text `w` that is no control command and in which
`"@@"` does not occur, or does not occur again from two bytes after its first
occurrence on: nothing changes, in either role. -/
theorem loop_udp_malformed (st : Device) (w : Str) (A : IPAddress)
    (hnew : w ≠ CMD_NEW_CLIENT) (hack : ¬ CMD_ACK <+: w)
    (hpeer : st.is_ap_mode = false →
      ¬ CMD_HISTORY_START <+: w ∧ ¬ CMD_HISTORY_END <+: w)
    (hmal : ¬ "@@".toList <:+: w ∨
      ∃ i, "@@".toList <+: w.drop i ∧ (∀ j, j < i → ¬ "@@".toList <+: w.drop j) ∧
        ¬ "@@".toList <:+: w.drop (i + 2)) :
    loop_udp st w A = st := by
  have hdec : decode_envelope w = none := by
    rcases hmal with h | ⟨i, h1, h2, h3⟩
    · exact decode_envelope_no_marker h
    · exact decode_envelope_no_second h1 h2 h3
  have h3 := (startsWith_eq_false_iff w CMD_ACK).mpr hack
  cases hrole : st.is_ap_mode with
  | true =>
    simp only [loop_udp, hrole, if_true, hnew, if_false, h3, Bool.false_eq_true, hdec]
  | false =>
    obtain ⟨hs, he⟩ := hpeer hrole
    have h1 := (startsWith_eq_false_iff w CMD_HISTORY_START).mpr hs
    have h2 := (startsWith_eq_false_iff w CMD_HISTORY_END).mpr he
    simp only [loop_udp, hrole, h1, h2, h3, hnew, hdec, Bool.false_eq_true, if_false,
      ne_eq, not_false_eq_true, if_true]

/-- A datagram that starts with `"@@ACK"` is none of the other control tokens. -/
theorem ack_prefix_excludes {w : Str} (h : CMD_ACK <+: w) :
    w ≠ CMD_NEW_CLIENT ∧ ¬ CMD_HISTORY_START <+: w ∧ ¬ CMD_HISTORY_END <+: w := by
  refine ⟨?_, ?_, ?_⟩
  · intro e
    rw [e] at h
    exact absurd h (by decide)
  · intro hs
    exact absurd (List.prefix_of_prefix_length_le h hs (by decide)) (by decide)
  · intro hs
    exact absurd (List.prefix_of_prefix_length_le h hs (by decide)) (by decide)

/-- C9. Acknowledgment detection takes priority and is a sink: in either role,
for every inbound datagram that starts with `"@@ACK"` (also one that is a
well-formed envelope), the handler only prints one log line: history buffer,
counter and busy indicator stay, and no datagram of any kind is sent. -/
theorem ack_is_sink (st : Device) (w : Str) (A : IPAddress) (hack : CMD_ACK <+: w) :
    (loop_udp st w A).message_history = st.message_history ∧
      (loop_udp st w A).history_size = st.history_size ∧
      (loop_udp st w A).udp_out = st.udp_out ∧
      (loop_udp st w A).led_busy = st.led_busy ∧
      ∃ line, loop_udp st w A = println st line := by
  obtain ⟨hnew, hs, he⟩ := ack_prefix_excludes hack
  have h1 := (startsWith_eq_false_iff w CMD_HISTORY_START).mpr hs
  have h2 := (startsWith_eq_false_iff w CMD_HISTORY_END).mpr he
  have h3 := (startsWith_iff w CMD_ACK).mpr hack
  have hloop : ∃ line, loop_udp st w A = println st line := by
    cases hrole : st.is_ap_mode with
    | true =>
      exact ⟨"ACK from ".toList ++ A.toString ++ " for: ".toList
          ++ WString.substringFrom w (CMD_ACK.length + 1),
        by simp only [loop_udp, hrole, if_true, hnew, if_false, h3]⟩
    | false =>
      exact ⟨"ACK received for: ".toList ++ WString.substringFrom w (CMD_ACK.length + 1),
        by simp only [loop_udp, hrole, h1, h2, h3, Bool.false_eq_true, if_false, if_true]⟩
  obtain ⟨line, hl⟩ := hloop
  rw [hl]
  exact ⟨rfl, rfl, rfl, rfl, line, rfl⟩

/-- C9 at `"@@ACK 1@@hello"`, which is also a well-formed envelope, received by
a coordinator that holds one line. -/
theorem ack_is_sink_witness :
    CMD_ACK <+: "@@ACK 1@@hello".toList ∧
    decode_envelope "@@ACK 1@@hello".toList = some ("ACK 1".toList, "hello".toList) ∧
    (loop_udp { Device.init true ⟨192, 168, 4, 1⟩ with
        message_history := "[AP]: hi\n".toList, history_size := 9 }
      "@@ACK 1@@hello".toList ⟨192, 168, 4, 2⟩).message_history = "[AP]: hi\n".toList ∧
    (loop_udp { Device.init true ⟨192, 168, 4, 1⟩ with
        message_history := "[AP]: hi\n".toList, history_size := 9 }
      "@@ACK 1@@hello".toList ⟨192, 168, 4, 2⟩).udp_out = [] :=
  ⟨by decide, by decide,
   (ack_is_sink { Device.init true ⟨192, 168, 4, 1⟩ with
        message_history := "[AP]: hi\n".toList, history_size := 9 }
      "@@ACK 1@@hello".toList ⟨192, 168, 4, 2⟩ (by decide)).1,
   (ack_is_sink { Device.init true ⟨192, 168, 4, 1⟩ with
        message_history := "[AP]: hi\n".toList, history_size := 9 }
      "@@ACK 1@@hello".toList ⟨192, 168, 4, 2⟩ (by decide)).2.2.1⟩

/-- `add_to_history` leaves the role flag alone. -/
theorem add_to_history_is_ap_mode (st : Device) (message : Str) :
    (add_to_history st message).is_ap_mode = st.is_ap_mode := by
  rw [add_to_history, add_to_history_cap_frame]

/-- C10. For every operator input line whose trimmed text `x` is non-empty, read
at uptime `t`: the device appends the composed message `f` to its history and
then broadcasts exactly `"@@" + id + "@@" + f` (and sends nothing else), where on
the coordinator `f = "[AP]: " + x` and `id = decimal(t) + "-AP"`, and on a peer
with address `P`, `f = "[" + P + "]: " + x` and `id = decimal(t) + "-" + P`; a
line that is empty after trimming changes nothing. -/
theorem operator_input (st : Device) (input : Str) (t : Nat) :
    (st.is_ap_mode = true → WString.trim input ≠ [] →
      loop_serial st input t =
        println
          (broadcast_message (add_to_history st ("[AP]: ".toList ++ WString.trim input))
            ("@@".toList ++ (decimal t ++ "-AP".toList) ++ "@@".toList
              ++ ("[AP]: ".toList ++ WString.trim input)))
          (">> ".toList ++ ("[AP]: ".toList ++ WString.trim input)) ∧
      (loop_serial st input t).message_history =
        (add_to_history st ("[AP]: ".toList ++ WString.trim input)).message_history ∧
      (loop_serial st input t).history_size =
        (add_to_history st ("[AP]: ".toList ++ WString.trim input)).history_size ∧
      (loop_serial st input t).udp_out = st.udp_out ++
        [Datagram.mk broadcast_ip ("@@".toList ++ (decimal t ++ "-AP".toList) ++ "@@".toList
          ++ ("[AP]: ".toList ++ WString.trim input))]) ∧
    (st.is_ap_mode = false → WString.trim input ≠ [] →
      loop_serial st input t =
        println (println
          (broadcast_message
            (add_to_history st
              ("[".toList ++ st.local_ip.toString ++ "]: ".toList ++ WString.trim input))
            ("@@".toList ++ (decimal t ++ "-".toList ++ st.local_ip.toString) ++ "@@".toList
              ++ ("[".toList ++ st.local_ip.toString ++ "]: ".toList ++ WString.trim input)))
          (">> ".toList
            ++ ("[".toList ++ st.local_ip.toString ++ "]: ".toList ++ WString.trim input)))
          "Waiting for ACKs...".toList ∧
      (loop_serial st input t).message_history =
        (add_to_history st
          ("[".toList ++ st.local_ip.toString ++ "]: ".toList ++ WString.trim input)).message_history ∧
      (loop_serial st input t).history_size =
        (add_to_history st
          ("[".toList ++ st.local_ip.toString ++ "]: ".toList ++ WString.trim input)).history_size ∧
      (loop_serial st input t).udp_out = st.udp_out ++
        [Datagram.mk broadcast_ip
          ("@@".toList ++ (decimal t ++ "-".toList ++ st.local_ip.toString) ++ "@@".toList
            ++ ("[".toList ++ st.local_ip.toString ++ "]: ".toList ++ WString.trim input))]) ∧
    (WString.trim input = [] → loop_serial st input t = st) := by
  refine ⟨?_, ?_, ?_⟩
  · intro hap hx
    have hlen : (WString.trim input).length > 0 := List.length_pos.mpr hx
    have hid : decimal t ++ "-".toList ++ "AP".toList = decimal t ++ "-AP".toList := by
      rw [List.append_assoc]; rfl
    have hloop : loop_serial st input t =
        println
          (broadcast_message (add_to_history st ("[AP]: ".toList ++ WString.trim input))
            ("@@".toList ++ (decimal t ++ "-AP".toList) ++ "@@".toList
              ++ ("[AP]: ".toList ++ WString.trim input)))
          (">> ".toList ++ ("[AP]: ".toList ++ WString.trim input)) := by
      simp only [loop_serial, hlen, if_true, hap, hid, println, broadcast_message, udp_send,
        add_to_history_is_ap_mode, Bool.not_true, Bool.false_eq_true, if_false]
    refine ⟨hloop, ?_, ?_, ?_⟩
    · rw [hloop]; rfl
    · rw [hloop]; rfl
    · rw [hloop]
      simp only [println, broadcast_message, udp_send]
      rw [add_to_history_udp_out]
  · intro hpeer hx
    have hlen : (WString.trim input).length > 0 := List.length_pos.mpr hx
    have hloop : loop_serial st input t =
        println (println
          (broadcast_message
            (add_to_history st
              ("[".toList ++ st.local_ip.toString ++ "]: ".toList ++ WString.trim input))
            ("@@".toList ++ (decimal t ++ "-".toList ++ st.local_ip.toString) ++ "@@".toList
              ++ ("[".toList ++ st.local_ip.toString ++ "]: ".toList ++ WString.trim input)))
          (">> ".toList
            ++ ("[".toList ++ st.local_ip.toString ++ "]: ".toList ++ WString.trim input)))
          "Waiting for ACKs...".toList := by
      simp only [loop_serial, hlen, if_true, hpeer, println, broadcast_message, udp_send,
        add_to_history_is_ap_mode, Bool.not_false, Bool.false_eq_true, if_false]
    refine ⟨hloop, ?_, ?_, ?_⟩
    · rw [hloop]; rfl
    · rw [hloop]; rfl
    · rw [hloop]
      simp only [println, broadcast_message, udp_send]
      rw [add_to_history_udp_out]
  · intro hx
    have hlen : ¬ (WString.trim input).length > 0 := by rw [hx]; simp
    simp only [loop_serial, hlen, if_false]

/-- C10 at the peer 192.168.4.2: the line `"  hello \r"` read at uptime 1234 is
trimmed to `"hello"` and broadcast as `"@@1234-192.168.4.2@@[192.168.4.2]: hello"`;
a line of blanks changes nothing. -/
theorem operator_input_witness :
    (Device.init false ⟨192, 168, 4, 2⟩).is_ap_mode = false ∧
    WString.trim "  hello \r".toList ≠ [] ∧
    (loop_serial (Device.init false ⟨192, 168, 4, 2⟩) "  hello \r".toList 1234).message_history
      = "[192.168.4.2]: hello\n".toList ∧
    (loop_serial (Device.init false ⟨192, 168, 4, 2⟩) "  hello \r".toList 1234).udp_out
      = [Datagram.mk broadcast_ip "@@1234-192.168.4.2@@[192.168.4.2]: hello".toList] ∧
    WString.trim " \t ".toList = [] ∧
    loop_serial (Device.init false ⟨192, 168, 4, 2⟩) " \t ".toList 1234
      = Device.init false ⟨192, 168, 4, 2⟩ :=
  ⟨rfl, by decide,
   (((operator_input (Device.init false ⟨192, 168, 4, 2⟩) "  hello \r".toList 1234).2.1
      rfl (by decide)).2.1).trans (by decide),
   ((operator_input (Device.init false ⟨192, 168, 4, 2⟩) "  hello \r".toList 1234).2.1
      rfl (by decide)).2.2.2,
   by decide,
   (operator_input (Device.init false ⟨192, 168, 4, 2⟩) " \t ".toList 1234).2.2 (by decide)⟩

/-- C11. When the coordinator's liveness timer fires (more than 30000 ms since
`last_broadcast`) and `millis()` returns `t` where the id is built, the history
buffer and its counter are unchanged and exactly one datagram is sent, the
broadcast of `"@@" + decimal(t) + "-AP@@System: AP heartbeat"`; the heartbeat is
not appended to the coordinator's own history. -/
theorem heartbeat_effect (st : Device) (t1 t2 t : Nat) (hap : st.is_ap_mode = true)
    (hfire : usub t1 st.last_broadcast > 30000) :
    (loop_heartbeat st t1 t2 t).message_history = st.message_history ∧
      (loop_heartbeat st t1 t2 t).history_size = st.history_size ∧
      (loop_heartbeat st t1 t2 t).udp_out = st.udp_out ++
        [Datagram.mk broadcast_ip
          ("@@".toList ++ decimal t ++ "-AP@@System: AP heartbeat".toList)] := by
  have hmsg : "@@".toList ++ (decimal t ++ "-AP".toList) ++ "@@System: AP heartbeat".toList
      = "@@".toList ++ decimal t ++ "-AP@@System: AP heartbeat".toList := by
    rw [← List.append_assoc, List.append_assoc ("@@".toList ++ decimal t)]
    rfl
  have hloop : loop_heartbeat st t1 t2 t =
      broadcast_message
        (println { st with last_broadcast := t2 }
          ("@@".toList ++ (decimal t ++ "-AP".toList) ++ "@@System: AP heartbeat".toList))
        ("@@".toList ++ (decimal t ++ "-AP".toList) ++ "@@System: AP heartbeat".toList) := by
    simp only [loop_heartbeat, hap, if_true, hfire]
  rw [hloop, hmsg]
  exact ⟨rfl, rfl, rfl⟩

/-- C11 at a coordinator whose timer fires at uptime 30001. -/
theorem heartbeat_effect_witness :
    (Device.init true ⟨192, 168, 4, 1⟩).is_ap_mode = true ∧
    usub 30001 (Device.init true ⟨192, 168, 4, 1⟩).last_broadcast > 30000 ∧
    (loop_heartbeat (Device.init true ⟨192, 168, 4, 1⟩) 30001 30001 30001).message_history
      = [] ∧
    (loop_heartbeat (Device.init true ⟨192, 168, 4, 1⟩) 30001 30001 30001).udp_out
      = [Datagram.mk broadcast_ip "@@30001-AP@@System: AP heartbeat".toList] :=
  ⟨rfl, by decide,
   (heartbeat_effect (Device.init true ⟨192, 168, 4, 1⟩) 30001 30001 30001 rfl (by decide)).1,
   (heartbeat_effect (Device.init true ⟨192, 168, 4, 1⟩) 30001 30001 30001 rfl
      (by decide)).2.2⟩

/-- C13. On a peer, handling any inbound datagram whatsoever leaves the history
buffer and its counter unchanged: the handler at most prints one line and sends
one acknowledgment. -/
theorem peer_history_untouched (st : Device) (w : Str) (R : IPAddress)
    (hpeer : st.is_ap_mode = false) :
    (loop_udp st w R).message_history = st.message_history ∧
      (loop_udp st w R).history_size = st.history_size := by
  simp only [loop_udp, hpeer, Bool.false_eq_true, if_false]
  split_ifs
  · exact ⟨rfl, rfl⟩
  · exact ⟨rfl, rfl⟩
  · exact ⟨rfl, rfl⟩
  · cases hdec : decode_envelope w with
    | none => exact ⟨rfl, rfl⟩
    | some r =>
      obtain ⟨msg_id, actual_msg⟩ := r
      simp only
      split_ifs
      · exact ⟨rfl, rfl⟩
      · exact ⟨rfl, rfl⟩
  · exact ⟨rfl, rfl⟩

/-- C13 at a peer that holds its own start-up line and receives a relayed
message, which it displays and acknowledges without storing it. -/
theorem peer_history_untouched_witness :
    ({ Device.init false ⟨192, 168, 4, 2⟩ with
        message_history := "System: Client 192.168.4.2 joined\n".toList
        history_size := 34 } : Device).is_ap_mode = false ∧
    (loop_udp { Device.init false ⟨192, 168, 4, 2⟩ with
        message_history := "System: Client 192.168.4.2 joined\n".toList
        history_size := 34 } "@@7-AP@@[AP]: hi".toList ⟨192, 168, 4, 1⟩).message_history
      = "System: Client 192.168.4.2 joined\n".toList ∧
    (loop_udp { Device.init false ⟨192, 168, 4, 2⟩ with
        message_history := "System: Client 192.168.4.2 joined\n".toList
        history_size := 34 } "@@7-AP@@[AP]: hi".toList ⟨192, 168, 4, 1⟩).history_size = 34 :=
  ⟨rfl,
   peer_history_untouched { Device.init false ⟨192, 168, 4, 2⟩ with
      message_history := "System: Client 192.168.4.2 joined\n".toList
      history_size := 34 } "@@7-AP@@[AP]: hi".toList ⟨192, 168, 4, 1⟩ rfl⟩

/-! ## The number and the sizes of the replay chunks -/

/-- The chunking loop, with the count and the sizes of what it sends: from
offset `start` of a buffer `H` of `n` bytes it sends `ceil((n - start) / 500)`
non-empty pieces, all of 500 bytes except possibly the last; the pieces depend
on the buffer only. -/
theorem chunk_loop_count (A : IPAddress) (H : Str) : ∀ (fuel : Nat) (start : Nat),
    H.length - start ≤ fuel →
    ∃ chunks : List Str,
      (∀ c ∈ chunks, 0 < c.length) ∧
      (∀ c ∈ chunks.dropLast, c.length = 500) ∧
      chunks.length = (H.length - start + 499) / 500 ∧
      chunks.flatten = H.drop start ∧
      ∀ st : Device, st.message_history = H →
        chunk_loop A fuel st start =
          { st with udp_out := st.udp_out ++ chunks.map (fun c => Datagram.mk A c) } := by
  intro fuel
  induction fuel with
  | zero =>
    intro start h
    refine ⟨[], by simp, by simp, ?_, ?_, ?_⟩
    · simp only [List.length_nil]; omega
    · rw [List.drop_eq_nil_of_le (by omega)]; rfl
    · intro st _
      simp only [chunk_loop, List.map_nil]
      exact (Device.eta_udp_out st).symm
  | succ k ih =>
    intro start h
    by_cases hlt : start < H.length
    · have hchunk : WString.substring H start (start + 500) = (H.drop start).take 500 := by
        rw [WString.substring_eq _ (by omega), List.drop_take]
        congr 1
        omega
      have hclen : ((H.drop start).take 500).length = min 500 (H.length - start) := by
        simp
      obtain ⟨chunks, c1, c2, c3, c4, c5⟩ :=
        ih (start + ((H.drop start).take 500).length) (by rw [hclen]; omega)
      refine ⟨(H.drop start).take 500 :: chunks, ?_, ?_, ?_, ?_, ?_⟩
      · intro c hc
        rcases List.mem_cons.mp hc with rfl | hc
        · rw [hclen]; omega
        · exact c1 c hc
      · intro c hc
        cases chunks with
        | nil => simp at hc
        | cons c0 cs =>
          rw [List.dropLast_cons_of_ne_nil (List.cons_ne_nil c0 cs)] at hc
          rcases List.mem_cons.mp hc with rfl | hc
          · simp only [List.length_cons] at c3
            rw [hclen] at c3 ⊢
            omega
          · exact c2 c hc
      · simp only [List.length_cons, c3, hclen]
        omega
      · rw [List.flatten_cons, c4, ← List.drop_drop]
        exact take_append_drop_length 500 _
      · intro st hst
        have hlt2 : start < st.message_history.length := by rw [hst]; exact hlt
        have h5 := c5 (udp_send st A ((H.drop start).take 500)) hst
        simp only [chunk_loop, hlt2, if_true]
        rw [hst, hchunk, h5]
        simp [udp_send, hst]
    · refine ⟨[], by simp, by simp, ?_, ?_, ?_⟩
      · simp only [List.length_nil]; omega
      · rw [List.drop_eq_nil_of_le (by omega)]; rfl
      · intro st hst
        have hlt2 : ¬ start < st.message_history.length := by rw [hst]; exact hlt
        simp only [chunk_loop, hlt2, if_false, List.map_nil]
        exact (Device.eta_udp_out st).symm

/-- C16. For every history buffer of length `n`, the chunking loop of
`send_history` ends (every bound of at least `n` iterations gives the same
final state) having sent exactly `ceil(n / 500)` chunk datagrams, each of them
non-empty and all but possibly the last exactly 500 bytes long (none when
`n = 0`), between `"@@HISTORY_START"` and `"@@HISTORY_END"`; the history buffer
and its counter are not modified. -/
theorem send_history_chunks (st : Device) (A : IPAddress) :
    ∃ chunks : List Str,
      chunks.length = (st.message_history.length + 499) / 500 ∧
      (∀ c ∈ chunks, 0 < c.length) ∧
      (∀ c ∈ chunks.dropLast, c.length = 500) ∧
      chunks.flatten = st.message_history ∧
      (∀ fuel, st.message_history.length ≤ fuel →
        chunk_loop A fuel st 0 =
          { st with udp_out := st.udp_out ++ chunks.map (fun c => Datagram.mk A c) }) ∧
      (send_history st A).udp_out =
        st.udp_out ++ [Datagram.mk A CMD_HISTORY_START]
          ++ chunks.map (fun c => Datagram.mk A c) ++ [Datagram.mk A CMD_HISTORY_END] ∧
      (send_history st A).message_history = st.message_history ∧
      (send_history st A).history_size = st.history_size := by
  obtain ⟨chunks, c1, c2, c3, c4, c5⟩ :=
    chunk_loop_count A st.message_history st.message_history.length 0 (by omega)
  have hloop : ∀ fuel, st.message_history.length ≤ fuel →
      chunk_loop A fuel st 0 =
        { st with udp_out := st.udp_out ++ chunks.map (fun c => Datagram.mk A c) } := by
    intro fuel hf
    rw [chunk_loop_fuel A fuel st.message_history.length st 0 (by omega) (by omega)]
    exact c5 st rfl
  have hsend : send_history st A =
      { st with
        serial_out := st.serial_out ++ ["Sending history to ".toList ++ A.toString]
        udp_out := st.udp_out ++ [Datagram.mk A CMD_HISTORY_START]
          ++ chunks.map (fun c => Datagram.mk A c) ++ [Datagram.mk A CMD_HISTORY_END] } := by
    have h5 := c5
      (udp_send (println st ("Sending history to ".toList ++ A.toString)) A CMD_HISTORY_START)
      rfl
    simp only [send_history]
    simp only [udp_send, println] at h5 ⊢
    rw [h5]
  refine ⟨chunks, by simpa using c3, c1, c2, by simpa using c4, hloop, ?_, ?_, ?_⟩
  · rw [hsend]
  · rw [hsend]
  · rw [hsend]

/-- C16 at a buffer of 1001 bytes: three chunks, of 500, 500 and 1 bytes. -/
theorem send_history_chunks_witness :
    ∃ chunks : List Str,
      chunks.length = 3 ∧
      (∀ c ∈ chunks, 0 < c.length) ∧
      (∀ c ∈ chunks.dropLast, c.length = 500) ∧
      chunks.flatten = List.replicate 1000 'x' ++ ['\n'] ∧
      (send_history { Device.init true ⟨192, 168, 4, 1⟩ with
          message_history := List.replicate 1000 'x' ++ ['\n']
          history_size := 1001 } ⟨192, 168, 4, 2⟩).udp_out =
        [Datagram.mk ⟨192, 168, 4, 2⟩ CMD_HISTORY_START]
          ++ chunks.map (fun c => Datagram.mk ⟨192, 168, 4, 2⟩ c)
          ++ [Datagram.mk ⟨192, 168, 4, 2⟩ CMD_HISTORY_END] := by
  obtain ⟨chunks, h1, h2, h3, h4, _, h6, _, _⟩ :=
    send_history_chunks { Device.init true ⟨192, 168, 4, 1⟩ with
      message_history := List.replicate 1000 'x' ++ ['\n']
      history_size := 1001 } ⟨192, 168, 4, 2⟩
  refine ⟨chunks, ?_, h2, h3, h4, h6⟩
  have hn : (List.replicate 1000 'x' ++ ['\n']).length = 1001 := by
    simp only [List.length_append, List.length_replicate, List.length_singleton]
  exact h1.trans (by rw [hn])

/-! ## Minimal eviction -/

/-- A device is its own update by the values its history globals hold. -/
theorem Device.eta_history (st : Device) {B : Str} {n : Nat}
    (h1 : st.message_history = B) (h2 : st.history_size = n) :
    st = { st with message_history := B, history_size := n } := by
  subst h1
  subst h2
  rfl

theorem joinLines_cons (l : Str) (ls : List Str) :
    joinLines (l :: ls) = l ++ '\n' :: joinLines ls := by
  simp [joinLines]

/-- In a state whose counter is the length of its buffer, the eviction loop
drops whole lines one at a time, each of them while the message does not fit,
keeps the counter equal to the length, and ends with room for the message, or
an empty buffer, or a buffer without a line terminator. -/
theorem evict_loop_lines (cap m : Nat) : ∀ (fuel : Nat) (st : Device),
    st.message_history.length ≤ fuel →
    st.history_size = st.message_history.length →
    st.message_history.length < WORD →
    ∃ (lines : List Str) (S : Str),
      st.message_history = joinLines lines ++ S ∧
      (∀ l ∈ lines, '\n' ∉ l) ∧
      evict_loop cap m fuel st = { st with message_history := S, history_size := S.length } ∧
      (∀ k, k < lines.length →
        cap < uadd ((joinLines (lines.drop k)).length + S.length) m) ∧
      (uadd S.length m ≤ cap ∨ S = [] ∨ '\n' ∉ S) := by
  intro fuel
  induction fuel with
  | zero =>
    intro st hf hsz _
    have he : st.message_history = [] := List.length_eq_zero.mp (by omega)
    refine ⟨[], [], by simp [joinLines, he], by simp, ?_, by simp, Or.inr (Or.inl rfl)⟩
    simp only [evict_loop]
    exact Device.eta_history st he (by rw [hsz, he])
  | succ k ih =>
    intro st hf hsz hW
    have hstay : st = { st with message_history := st.message_history,
                                history_size := st.message_history.length } :=
      Device.eta_history st rfl hsz
    by_cases hc : uadd st.history_size m > cap ∧ st.message_history.length > 0
    · rcases split_first '\n' st.message_history with hn | ⟨line, rest, hs, hl⟩
      · refine ⟨[], st.message_history, by simp [joinLines], by simp, ?_, by simp,
          Or.inr (Or.inr hn)⟩
        rw [evict_loop_break cap m _ st hn]
        exact hstay
      · have hlen : st.message_history.length = line.length + 1 + rest.length := by
          simp [hs]; omega
        have hsub : usub st.history_size ((line.length + 1) % WORD) = rest.length := by
          rw [hsz, hlen]
          rw [hlen] at hW
          simp only [usub, WORD] at hW ⊢
          omega
        obtain ⟨lines, S, h1, h2, h3, h4, h5⟩ :=
          ih { st with
               message_history := rest
               history_size := usub st.history_size ((line.length + 1) % WORD) }
            (by simp only; omega) (by simp only; exact hsub) (by simp only; omega)
        simp only at h1 h3
        refine ⟨line :: lines, S, ?_, ?_, ?_, ?_, h5⟩
        · rw [hs, h1, joinLines_cons]; simp
        · intro l hl2
          rcases List.mem_cons.mp hl2 with rfl | hl2
          · exact hl
          · exact h2 l hl2
        · rw [evict_loop_evict cap m k st line rest hs hl hc.1, h3]
        · intro j hj
          cases j with
          | zero =>
            have e : (joinLines (List.drop 0 (line :: lines))).length + S.length
                = st.history_size := by
              rw [hsz, hlen, List.drop_zero, joinLines_cons]
              have : rest.length = (joinLines lines).length + S.length := by
                rw [h1]; simp
              simp only [List.length_append, List.length_cons]
              omega
            rw [e]
            exact hc.1
          | succ j2 =>
            simp only [List.drop_succ_cons]
            exact h4 j2 (by simp only [List.length_cons] at hj; omega)
    · refine ⟨[], st.message_history, by simp [joinLines], by simp, ?_, by simp, ?_⟩
      · rw [evict_loop_stop cap m _ st hc]
        exact hstay
      · by_cases hl : st.message_history.length > 0
        · exact Or.inl (by rw [← hsz]; omega)
        · exact Or.inr (Or.inl (List.length_eq_zero.mp (by omega)))

/-- The lines left after dropping some are no longer than all of them. -/
theorem joinLines_drop_length_le : ∀ (lines : List Str) (k : Nat),
    (joinLines (lines.drop k)).length ≤ (joinLines lines).length := by
  intro lines
  induction lines with
  | nil => intro k; simp
  | cons l ls ih =>
    intro k
    cases k with
    | zero => simp
    | succ k2 =>
      have := ih k2
      simp only [List.drop_succ_cons, joinLines_cons, List.length_append, List.length_cons]
      omega

/-- C14. Eviction in `add_to_history` is minimal, for every capacity (`cap`;
`add_to_history` itself is the case `cap = MAX_HISTORY_SIZE`): for every history
buffer that is empty or ends with `'\n'`, with the counter equal to its length,
and every payload `p` (buffer and payload being strings of the device, of less
than `2^32` bytes together), the call evicts leading lines `lines` one at a time
and keeps the rest `S`; it stops at the first point where
`currentSize + len(p) + 1 ≤ cap` or the buffer is empty, for before each
evicted line the message did not fit; in particular keeping the last evicted
line would have exceeded the capacity. -/
theorem eviction_minimal (cap : Nat) (st : Device) (p : Str)
    (hB : st.message_history = [] ∨ ['\n'] <:+ st.message_history)
    (hsz : st.history_size = st.message_history.length)
    (hrep : st.message_history.length + (p.length + 1) < 2 ^ 32) :
    ∃ (lines : List Str) (S : Str),
      st.message_history = joinLines lines ++ S ∧
      (∀ l ∈ lines, '\n' ∉ l) ∧
      (add_to_history_cap cap st p).message_history = S ++ p ++ ['\n'] ∧
      (add_to_history_cap cap st p).history_size = S.length + (p.length + 1) ∧
      (S.length + (p.length + 1) ≤ cap ∨ S = []) ∧
      (∀ k, k < lines.length →
        cap < (joinLines (lines.drop k)).length + S.length + (p.length + 1)) ∧
      (∀ l, lines.getLast? = some l → cap < (l.length + 1) + S.length + (p.length + 1)) := by
  have hm : uadd p.length 1 = p.length + 1 := by
    simp only [uadd, WORD]; omega
  obtain ⟨lines, S, h1, h2, h3, h4, h5⟩ :=
    evict_loop_lines cap (uadd p.length 1) st.message_history.length st (le_refl _) hsz
      (by simp only [WORD]; omega)
  have hlen : st.message_history.length = (joinLines lines).length + S.length := by
    rw [h1]; simp
  have hexact : ∀ x, x ≤ (joinLines lines).length →
      uadd (x + S.length) (uadd p.length 1) = x + S.length + (p.length + 1) := by
    intro x hx
    rw [hm]
    simp only [uadd, WORD]
    omega
  have hmin : ∀ k, k < lines.length →
      cap < (joinLines (lines.drop k)).length + S.length + (p.length + 1) := by
    intro k hk
    have := h4 k hk
    rwa [hexact _ (joinLines_drop_length_le lines k)] at this
  have hS : S = [] ∨ ['\n'] <:+ S := by
    by_cases hS : S = []
    · exact Or.inl hS
    · rcases hB with hB | hB
      · rw [hB] at h1
        exact Or.inl (List.append_eq_nil.mp h1.symm).2
      · exact Or.inr (suffix_of_split h1 hB hS)
  refine ⟨lines, S, h1, h2, ?_, ?_, ?_, hmin, ?_⟩
  · simp only [add_to_history_cap, h3, List.append_assoc]
  · simp only [add_to_history_cap, h3]
    have := hexact 0 (Nat.zero_le _)
    simpa using this
  · have h0 := hexact 0 (Nat.zero_le _)
    simp only [Nat.zero_add] at h0
    rcases h5 with h | h | h
    · exact Or.inl (by rw [h0] at h; exact h)
    · exact Or.inr h
    · rcases hS with hS | hS
      · exact Or.inr hS
      · exact absurd (mem_of_suffix hS) h
  · intro l hl
    obtain ⟨ys, hys⟩ := List.getLast?_eq_some_iff.mp hl
    have hk := hmin ys.length (by rw [hys]; simp)
    rw [hys, List.drop_left] at hk
    simpa [joinLines] using hk

/-- C14 at the example of the specification, capacity 20: after `"AAAAAAAAAA"`,
appending `"BBBBBBBBBB"` evicts the first line and leaves the buffer
`"BBBBBBBBBB\n"` with the counter at 11. -/
theorem eviction_minimal_witness :
    (add_to_history_cap 20 (Device.init true ⟨192, 168, 4, 1⟩) "AAAAAAAAAA".toList).message_history
      = "AAAAAAAAAA\n".toList ∧
    (add_to_history_cap 20 (Device.init true ⟨192, 168, 4, 1⟩) "AAAAAAAAAA".toList).history_size
      = 11 ∧
    (add_to_history_cap 20
      (add_to_history_cap 20 (Device.init true ⟨192, 168, 4, 1⟩) "AAAAAAAAAA".toList)
      "BBBBBBBBBB".toList).message_history = "BBBBBBBBBB\n".toList ∧
    (add_to_history_cap 20
      (add_to_history_cap 20 (Device.init true ⟨192, 168, 4, 1⟩) "AAAAAAAAAA".toList)
      "BBBBBBBBBB".toList).history_size = 11 := by
  obtain ⟨lines, S, _, _, h3, h4, _, _, _⟩ := eviction_minimal 20
    (add_to_history_cap 20 (Device.init true ⟨192, 168, 4, 1⟩) "AAAAAAAAAA".toList)
    "BBBBBBBBBB".toList (by decide) (by decide) (by decide)
  have hbuf : (add_to_history_cap 20
      (add_to_history_cap 20 (Device.init true ⟨192, 168, 4, 1⟩) "AAAAAAAAAA".toList)
      "BBBBBBBBBB".toList).message_history = "BBBBBBBBBB\n".toList := by decide
  have hS : S = [] := by
    have e : S ++ ("BBBBBBBBBB".toList ++ ['\n']) = [] ++ ("BBBBBBBBBB".toList ++ ['\n']) := by
      rw [← List.append_assoc, ← h3, hbuf]
      rfl
    exact List.append_cancel_right e
  refine ⟨by decide, by decide, hbuf, ?_⟩
  rw [h4, hS]
  rfl

/-! ## Reachable states of the history buffer -/

/-- In a consistent state the run of the eviction loop never takes the `break`
and never subtracts more than the counter holds. -/
theorem evict_loop_ghost_clean (cap m : Nat) : ∀ (fuel : Nat) (st : Device),
    Consistent st → st.message_history.length < WORD →
    evict_loop_ghost cap m fuel st = (false, false) := by
  intro fuel
  induction fuel with
  | zero => intro st _ _; rfl
  | succ k ih =>
    intro st hc hW
    obtain ⟨hsz, hnl⟩ := hc
    by_cases hcond : uadd st.history_size m > cap ∧ st.message_history.length > 0
    · have hne : st.message_history ≠ [] := by
        intro h
        rw [h] at hcond
        simp at hcond
      have hend : ['\n'] <:+ st.message_history := by
        rcases hnl with h | h
        · exact absurd h hne
        · exact h
      rcases split_first '\n' st.message_history with hn | ⟨line, rest, hs, hl⟩
      · exact absurd (mem_of_suffix hend) hn
      · have hlen : st.message_history.length = line.length + 1 + rest.length := by
          simp [hs]; omega
        have hp : WString.indexOfChar st.message_history '\n' = (line.length : Int) := by
          rw [hs]; exact indexOfChar_append line rest hl
        have hne1 : ¬ ((line.length : Int) = -1) := by omega
        have htn : ((line.length : Int) + 1).toNat = line.length + 1 := by omega
        have hd : WString.substringFrom st.message_history (line.length + 1) = rest := by
          rw [WString.substringFrom_eq_drop, hs]
          simp
        have hsub : usub st.history_size ((line.length + 1) % WORD) = rest.length := by
          rw [hsz, hlen]
          rw [hlen] at hW
          simp only [usub, WORD] at hW ⊢
          omega
        have hno : ¬ st.history_size < (line.length + 1) % WORD := by
          rw [hsz, hlen]
          rw [hlen] at hW
          simp only [WORD] at hW ⊢
          omega
        have hrest : rest = [] ∨ ['\n'] <:+ rest := by
          by_cases hr : rest = []
          · exact Or.inl hr
          · have hs2 : st.message_history = (line ++ ['\n']) ++ rest := by rw [hs]; simp
            exact Or.inr (suffix_of_split hs2 hend hr)
        have hrec := ih { st with
            message_history := rest
            history_size := usub st.history_size ((line.length + 1) % WORD) }
          ⟨by simp only; exact hsub, by simp only; exact hrest⟩ (by simp only; omega)
        simp only [evict_loop_ghost, hcond, and_self, if_true, hp, hne1, if_false, htn, hd,
          hrec, hno, decide_False, Bool.or_self]
    · simp only [evict_loop_ghost, hcond, if_false]

/-- One append from a consistent state of less than `2^31` bytes, of a line of
less than `2^31` bytes with its terminator, gives such a state again. -/
theorem add_to_history_consistent (st : Device) (p : Str) (hc : Consistent st)
    (hL : st.message_history.length < 2 ^ 31) (hp : p.length + 1 < 2 ^ 31) :
    Consistent (add_to_history st p) ∧ (add_to_history st p).message_history.length < 2 ^ 31 := by
  obtain ⟨hsz, hnl⟩ := hc
  have hm : uadd p.length 1 = p.length + 1 := by
    simp only [uadd, WORD]; omega
  obtain ⟨lines, S, h1, _, h3, _, h5⟩ :=
    evict_loop_lines MAX_HISTORY_SIZE (uadd p.length 1) st.message_history.length st
      (le_refl _) hsz (by simp only [WORD]; omega)
  have hlen : st.message_history.length = (joinLines lines).length + S.length := by
    rw [h1]; simp
  have hexact : uadd S.length (uadd p.length 1) = S.length + (p.length + 1) := by
    rw [hm]
    simp only [uadd, WORD]
    omega
  have hS : S = [] ∨ ['\n'] <:+ S := by
    by_cases hS : S = []
    · exact Or.inl hS
    · rcases hnl with hB | hB
      · rw [hB] at h1
        exact Or.inl (List.append_eq_nil.mp h1.symm).2
      · exact Or.inr (suffix_of_split h1 hB hS)
  have hfit : S.length + (p.length + 1) < 2 ^ 31 := by
    rcases h5 with h | h | h
    · rw [hexact] at h
      simp only [MAX_HISTORY_SIZE] at h
      omega
    · rw [h]; simpa using hp
    · rcases hS with hS | hS
      · rw [hS]; simpa using hp
      · exact absurd (mem_of_suffix hS) h
  simp only [add_to_history, add_to_history_cap, h3, hexact, Consistent]
  refine ⟨⟨by simp, Or.inr ⟨S ++ p, by simp⟩⟩, ?_⟩
  simp only [List.length_append, List.length_singleton]
  omega

/-- Every state reached from a consistent one of less than `2^31` bytes by
appends of lines of less than `2^31` bytes is such a state. -/
theorem foldl_add_to_history_consistent (payloads : List Str)
    (hrep : ∀ p ∈ payloads, p.length + 1 < 2 ^ 31) :
    ∀ st : Device, Consistent st → st.message_history.length < 2 ^ 31 →
      Consistent (payloads.foldl add_to_history st) ∧
        (payloads.foldl add_to_history st).message_history.length < 2 ^ 31 := by
  induction payloads with
  | nil => intro st h1 h2; exact ⟨h1, h2⟩
  | cons p ps ih =>
    intro st h1 h2
    have hstep := add_to_history_consistent st p h1 h2 (hrep p (by simp))
    simp only [List.foldl_cons]
    exact ih (fun q hq => hrep q (by simp [hq])) _ hstep.1 hstep.2

/-- C15. In every state reached from the empty buffer by `add_to_history` calls
(on payloads that are strings of the device: less than `2^31` bytes each with
the terminator), `history_size` is the length of `message_history` and
`message_history` is empty or ends with `'\n'`; consequently, in a further call
with any payload, the run of the eviction loop never takes the "no line
terminator" `break` and never does `history_size -= remove_size` with
`remove_size > history_size`. -/
theorem reachable_consistent (st0 : Device) (payloads : List Str)
    (hbuf : st0.message_history = []) (hsize : st0.history_size = 0)
    (hrep : ∀ p ∈ payloads, p.length + 1 < 2 ^ 31) :
    (payloads.foldl add_to_history st0).history_size
        = (payloads.foldl add_to_history st0).message_history.length ∧
      ((payloads.foldl add_to_history st0).message_history = [] ∨
        ['\n'] <:+ (payloads.foldl add_to_history st0).message_history) ∧
      ∀ p : Str,
        evict_loop_ghost MAX_HISTORY_SIZE (uadd p.length 1)
          (payloads.foldl add_to_history st0).message_history.length
          (payloads.foldl add_to_history st0) = (false, false) := by
  have h0 : Consistent st0 := ⟨by rw [hbuf, hsize]; rfl, Or.inl hbuf⟩
  obtain ⟨hc, hL⟩ := foldl_add_to_history_consistent payloads hrep st0 h0
    (by rw [hbuf]; simp)
  refine ⟨hc.1, hc.2, ?_⟩
  intro p
  exact evict_loop_ghost_clean MAX_HISTORY_SIZE (uadd p.length 1) _ _ hc
    (by simp only [WORD]; omega)

/-- C15 at the state a coordinator reaches by two appends. -/
theorem reachable_consistent_witness :
    (∀ p ∈ ["System: AP started".toList, "[AP]: hello".toList], p.length + 1 < 2 ^ 31) ∧
    (["System: AP started".toList, "[AP]: hello".toList].foldl add_to_history
        (Device.init true ⟨192, 168, 4, 1⟩)).history_size
      = (["System: AP started".toList, "[AP]: hello".toList].foldl add_to_history
        (Device.init true ⟨192, 168, 4, 1⟩)).message_history.length ∧
    (["System: AP started".toList, "[AP]: hello".toList].foldl add_to_history
        (Device.init true ⟨192, 168, 4, 1⟩)).message_history
      = "System: AP started\n[AP]: hello\n".toList :=
  ⟨by decide,
   (reachable_consistent (Device.init true ⟨192, 168, 4, 1⟩)
      ["System: AP started".toList, "[AP]: hello".toList] rfl rfl (by decide)).1,
   by decide⟩

/-- The two observations are real: a counter-less buffer without a terminator
takes the `break`, and a counter below the length of the evicted line wraps. -/
theorem evict_loop_ghost_detects :
    evict_loop_ghost 5 4 3
        { Device.init true broadcast_ip with
          message_history := "abc".toList, history_size := 3 } = (true, false) ∧
      evict_loop_ghost 5 6 2
        { Device.init true broadcast_ip with
          message_history := "a\n".toList, history_size := 1 } = (false, true) := by
  decide

/-! ## What the texts built by the sketch are made of -/

/-- A decimal digit is none of the letters that follow `"@@"` in a control
token, nor `'@'`. -/
theorem isDigit_ne {c : Char} (h : c.isDigit = true) :
    c ≠ '@' ∧ c ≠ 'A' ∧ c ≠ 'H' ∧ c ≠ 'N' := by
  refine ⟨?_, ?_, ?_, ?_⟩ <;>
  · intro e
    rw [e] at h
    exact absurd h (by decide)

theorem toDigitsCore_isDigit : ∀ (fuel n : Nat) (ds : List Char),
    (∀ c ∈ ds, c.isDigit = true) → ∀ c ∈ Nat.toDigitsCore 10 fuel n ds, c.isDigit = true := by
  intro fuel
  induction fuel with
  | zero => intro n ds h c hc; exact h c (by simpa [Nat.toDigitsCore] using hc)
  | succ k ih =>
    intro n ds h c hc
    have hd : (Nat.digitChar (n % 10)).isDigit = true := by
      have : ∀ d, d < 10 → (Nat.digitChar d).isDigit = true := by decide
      exact this _ (Nat.mod_lt _ (by decide))
    have hds : ∀ c ∈ Nat.digitChar (n % 10) :: ds, c.isDigit = true := by
      intro c hc
      rcases List.mem_cons.mp hc with rfl | hc
      · exact hd
      · exact h c hc
    simp only [Nat.toDigitsCore] at hc
    split_ifs at hc
    · exact hds c hc
    · exact ih _ _ hds c hc

/-- `String(unsigned long)` consists of decimal digits. -/
theorem decimal_isDigit (n : Nat) : ∀ c ∈ decimal n, c.isDigit = true := by
  intro c hc
  exact toDigitsCore_isDigit _ _ [] (by simp) c hc

/-- A dotted-decimal address consists of decimal digits and dots. -/
theorem toString_chars (ip : IPAddress) :
    ∀ c ∈ ip.toString, c.isDigit = true ∨ c = '.' := by
  intro c hc
  simp only [IPAddress.toString, List.mem_append, List.mem_singleton] at hc
  rcases hc with ((((((h | h) | h) | h) | h) | h) | h)
  · exact Or.inl (decimal_isDigit _ c h)
  · exact Or.inr h
  · exact Or.inl (decimal_isDigit _ c h)
  · exact Or.inr h
  · exact Or.inl (decimal_isDigit _ c h)
  · exact Or.inr h
  · exact Or.inl (decimal_isDigit _ c h)

/-- A text without `'@'` has no `"@@"` marker. -/
theorem not_infix_of_not_mem {s : Str} (h : '@' ∉ s) : ¬ "@@".toList <:+: s := by
  rintro ⟨a, b, e⟩
  apply h
  rw [← e]
  simp

/-- A peer drops every text in which `"@@"` does not occur: such a text is no
control token and fails envelope decoding. -/
theorem no_marker_dropped (st : Device) (w : Str) (R : IPAddress)
    (hpeer : st.is_ap_mode = false) (h : ¬ "@@".toList <:+: w) :
    loop_udp st w R = st := by
  have htok : ∀ tok : Str, "@@".toList <+: tok → ¬ tok <+: w := by
    intro tok h1 h2
    exact h (List.IsPrefix.isInfix (h1.trans h2))
  have h1 := (startsWith_eq_false_iff w CMD_HISTORY_START).mpr (htok _ (by decide))
  have h2 := (startsWith_eq_false_iff w CMD_HISTORY_END).mpr (htok _ (by decide))
  have h3 := (startsWith_eq_false_iff w CMD_ACK).mpr (htok _ (by decide))
  have hdec := decode_envelope_no_marker h
  simp only [loop_udp, hpeer, h1, h2, h3, hdec, Bool.false_eq_true, if_false, ite_self]

/-! ## Replay chunks and the join notice on a peer -/

/-- C12 on the code. A coordinator that holds the one line `"[AP]: hello"`
replays it to 192.168.4.2 as the single chunk `"[AP]: hello\n"`; the peer, given
`"@@HISTORY_START"`, that chunk and `"@@HISTORY_END"` in turn, prints only
`"Receiving history..."` and `"History received"`: the chunk has no `"@@"`,
fails envelope decoding and is dropped without being displayed. -/
theorem replay_chunk_dropped :
    (send_history { Device.init true ⟨192, 168, 4, 1⟩ with
        message_history := "[AP]: hello\n".toList, history_size := 12 }
      ⟨192, 168, 4, 2⟩).udp_out =
      [Datagram.mk ⟨192, 168, 4, 2⟩ CMD_HISTORY_START,
       Datagram.mk ⟨192, 168, 4, 2⟩ "[AP]: hello\n".toList,
       Datagram.mk ⟨192, 168, 4, 2⟩ CMD_HISTORY_END] ∧
    loop_udp (Device.init false ⟨192, 168, 4, 2⟩) "[AP]: hello\n".toList ⟨192, 168, 4, 1⟩
      = Device.init false ⟨192, 168, 4, 2⟩ ∧
    (loop_udp
      (loop_udp
        (loop_udp (Device.init false ⟨192, 168, 4, 2⟩) CMD_HISTORY_START ⟨192, 168, 4, 1⟩)
        "[AP]: hello\n".toList ⟨192, 168, 4, 1⟩)
      CMD_HISTORY_END ⟨192, 168, 4, 1⟩).serial_out
      = ["Receiving history...".toList, "History received".toList] := by
  decide

/-- The join notice contains no `'@'`. -/
theorem join_notice_no_at (A : IPAddress) :
    '@' ∉ "System: ".toList ++ A.toString ++ " joined".toList := by
  intro h
  simp only [List.mem_append] at h
  rcases h with (h | h) | h
  · exact absurd h (by decide)
  · rcases toString_chars A _ h with hd | hd
    · exact (isDigit_ne hd).1 rfl
    · exact absurd hd (by decide)
  · exact absurd h (by decide)

/-- C18. The join notice is broadcast without an envelope: for every joining
address `A`, the coordinator's handling of `"@@NEW_CLIENT"` ends with the
broadcast of exactly `"System: " + A + " joined"` (after the replay datagrams,
which all go to `A`), the same text that it appends to its history as the last
line; this text contains no `"@@"`, so on every peer envelope decoding fails and
the handler changes nothing: nothing is displayed and nothing is sent. -/
theorem join_notice_plain (c : Device) (A : IPAddress) (hap : c.is_ap_mode = true)
    (st : Device) (R : IPAddress) (hpeer : st.is_ap_mode = false) :
    (∃ replay : List Datagram,
      (∀ d ∈ replay, d.dest = A) ∧
      (loop_udp c CMD_NEW_CLIENT A).udp_out = c.udp_out ++ replay ++
        [Datagram.mk broadcast_ip ("System: ".toList ++ A.toString ++ " joined".toList)]) ∧
      (("System: ".toList ++ A.toString ++ " joined".toList) ++ ['\n'])
        <:+ (loop_udp c CMD_NEW_CLIENT A).message_history ∧
      ¬ "@@".toList <:+: ("System: ".toList ++ A.toString ++ " joined".toList) ∧
      decode_envelope ("System: ".toList ++ A.toString ++ " joined".toList) = none ∧
      loop_udp st ("System: ".toList ++ A.toString ++ " joined".toList) R = st := by
  have hno := not_infix_of_not_mem (join_notice_no_at A)
  obtain ⟨chunks, _, _, c3⟩ :=
    send_history_spec (println c ("New client: ".toList ++ A.toString)) A
  have hloop : loop_udp c CMD_NEW_CLIENT A =
      broadcast_message
        (add_to_history
          (send_history (println c ("New client: ".toList ++ A.toString)) A)
          ("System: ".toList ++ A.toString ++ " joined".toList))
        ("System: ".toList ++ A.toString ++ " joined".toList) := by
    simp only [loop_udp, hap, if_true]
  refine ⟨⟨[Datagram.mk A CMD_HISTORY_START] ++ chunks.map (fun c => Datagram.mk A c)
      ++ [Datagram.mk A CMD_HISTORY_END], ?_, ?_⟩, ?_, hno, decode_envelope_no_marker hno,
    no_marker_dropped st _ R hpeer hno⟩
  · intro d hd
    simp only [List.mem_append, List.mem_singleton, List.mem_map] at hd
    rcases hd with (rfl | ⟨x, _, rfl⟩) | rfl
    · rfl
    · rfl
    · rfl
  · rw [hloop]
    simp only [broadcast_message, udp_send]
    rw [add_to_history_udp_out, c3]
    simp [println]
  · rw [hloop]
    obtain ⟨D, S, _, _, h3, _, _⟩ := add_to_history_cap_spec MAX_HISTORY_SIZE
      (send_history (println c ("New client: ".toList ++ A.toString)) A)
      ("System: ".toList ++ A.toString ++ " joined".toList)
    simp only [broadcast_message, udp_send]
    exact ⟨S, h3.symm⟩

/-- C18 at the join of 192.168.4.3, seen by the peer 192.168.4.2. -/
theorem join_notice_plain_witness :
    (Device.init true ⟨192, 168, 4, 1⟩).is_ap_mode = true ∧
    (Device.init false ⟨192, 168, 4, 2⟩).is_ap_mode = false ∧
    (loop_udp (Device.init true ⟨192, 168, 4, 1⟩) CMD_NEW_CLIENT ⟨192, 168, 4, 3⟩).udp_out
      = [Datagram.mk ⟨192, 168, 4, 3⟩ CMD_HISTORY_START,
         Datagram.mk ⟨192, 168, 4, 3⟩ CMD_HISTORY_END,
         Datagram.mk broadcast_ip "System: 192.168.4.3 joined".toList] ∧
    loop_udp (Device.init false ⟨192, 168, 4, 2⟩) "System: 192.168.4.3 joined".toList
      ⟨192, 168, 4, 1⟩ = Device.init false ⟨192, 168, 4, 2⟩ :=
  ⟨rfl, rfl, by decide,
   (join_notice_plain (Device.init true ⟨192, 168, 4, 1⟩) ⟨192, 168, 4, 3⟩ rfl
      (Device.init false ⟨192, 168, 4, 2⟩) ⟨192, 168, 4, 1⟩ rfl).2.2.2.2⟩

/-! ## What a peer originates -/

/-- The wire string of an id without `'@'` decodes to the id and the payload. -/
theorem decode_envelope_plain_id (id payload : Str) (h : '@' ∉ id) :
    decode_envelope ("@@".toList ++ id ++ "@@".toList ++ payload) = some (id, payload) := by
  have hid : ¬ ['@', '@'] <:+: id := by
    rintro ⟨a, b, e⟩
    exact h (by rw [← e]; simp)
  have hend : ¬ ['@'] <:+ id := by
    rintro ⟨a, e⟩
    exact h (by rw [← e]; simp)
  obtain ⟨m1, m2⟩ := marker_after_id id payload hid hend
  have hw : "@@".toList ++ id ++ "@@".toList ++ payload
      = List.drop 0 (['@', '@'] ++ (id ++ ['@', '@'] ++ payload)) := by
    simp
  have first : WString.indexOf ("@@".toList ++ id ++ "@@".toList ++ payload) "@@".toList
      = ((0 + 0 : Nat) : Int) := by
    unfold WString.indexOf
    refine indexOfFrom_first (by decide) ?_ (fun j hj => absurd hj (Nat.not_lt_zero j))
    rw [hw]
    exact List.prefix_append _ _
  have second : WString.indexOfFrom ("@@".toList ++ id ++ "@@".toList ++ payload) "@@".toList 2
      = ((2 + id.length : Nat) : Int) := by
    refine indexOfFrom_first (by decide) ?_ ?_
    · rw [hw, List.drop_zero, ← List.drop_drop]
      exact m1
    · intro j hj
      rw [hw, List.drop_zero, ← List.drop_drop]
      exact m2 j hj
  have cut_id : WString.substring ("@@".toList ++ id ++ "@@".toList ++ payload) 2
      (2 + id.length) = id := by
    rw [WString.substring_eq _ (by omega), List.append_assoc ("@@".toList ++ id)]
    exact take_drop_mid "@@".toList id _
  have cut_payload : WString.substringFrom ("@@".toList ++ id ++ "@@".toList ++ payload)
      (2 + id.length + 2) = payload := by
    rw [WString.substringFrom_eq_drop]
    refine List.drop_left' ?_
    simp only [List.length_append]
    have : "@@".toList.length = 2 := rfl
    omega
  have t1 : ((((0 + 0 : Nat) : Int)) + 2).toNat = 2 := by decide
  have t2 : (((2 + id.length : Nat) : Int)).toNat = 2 + id.length := by omega
  have t3 : ((((2 + id.length : Nat) : Int)) + 2).toNat = 2 + id.length + 2 := by omega
  have n1 : ¬ (((0 + 0 : Nat) : Int) = -1) := by decide
  have n2 : ¬ (((2 + id.length : Nat) : Int) = -1) := by omega
  unfold decode_envelope
  simp only [first, t1, second, t2, t3, n1, n2, cut_id, cut_payload, ne_eq,
    not_false_eq_true, and_self, if_true]

/-- A token `"@@X…"` is no prefix of a wire string whose non-empty id has no `X`. -/
theorem token_not_prefix (X : Char) (tokrest id rest : Str) (hid : id ≠ []) (hX : X ∉ id) :
    ¬ ('@' :: '@' :: X :: tokrest) <+: ("@@".toList ++ id ++ rest) := by
  intro h
  cases id with
  | nil => exact hid rfl
  | cons c cs =>
    have hw : "@@".toList ++ (c :: cs) ++ rest = '@' :: '@' :: c :: (cs ++ rest) := by simp
    rw [hw] at h
    simp only [List.cons_prefix_cons, true_and] at h
    exact hX (by rw [h.1]; simp)

/-- The id a peer builds consists of digits, `'-'` and `'.'`. -/
theorem peer_id_chars (t : Nat) (ip : IPAddress) :
    ∀ c ∈ decimal t ++ "-".toList ++ ip.toString, c.isDigit = true ∨ c = '-' ∨ c = '.' := by
  intro c hc
  simp only [List.mem_append] at hc
  rcases hc with (h | h) | h
  · exact Or.inl (decimal_isDigit t c h)
  · exact Or.inr (Or.inl (by simpa using h))
  · rcases toString_chars ip c h with hd | hd
    · exact Or.inl hd
    · exact Or.inr (Or.inr hd)

/-- The id a peer builds contains none of `'@'`, `'A'`, `'H'`, `'N'`. -/
theorem peer_id_free (t : Nat) (ip : IPAddress) :
    '@' ∉ decimal t ++ "-".toList ++ ip.toString ∧
      'A' ∉ decimal t ++ "-".toList ++ ip.toString ∧
      'H' ∉ decimal t ++ "-".toList ++ ip.toString ∧
      'N' ∉ decimal t ++ "-".toList ++ ip.toString := by
  refine ⟨?_, ?_, ?_, ?_⟩ <;>
  · intro h
    rcases peer_id_chars t ip _ h with hd | hd | hd
    · exact absurd hd (by decide)
    · exact absurd hd (by decide)
    · exact absurd hd (by decide)

/-! ## The receive step -/

/-- What is received is a prefix of the datagram, of at most 511 bytes, none
of them NUL. -/
theorem receive_facts {w m : Str} (h : receive w = some m) :
    m <+: w ∧ m.length ≤ 511 ∧ '\x00' ∉ m ∧ w ≠ [] := by
  unfold receive at h
  by_cases h0 : w.length = 0
  · simp [h0] at h
  · simp only [h0, if_false, Option.some.injEq] at h
    subst h
    refine ⟨(List.takeWhile_prefix _).trans (List.take_prefix 511 w), ?_, ?_, ?_⟩
    · have h1 := (@List.takeWhile_prefix _ (w.take 511) (fun c => c != '\x00')).length_le
      have h2 : (w.take 511).length ≤ 511 := by simp
      omega
    · intro hmem
      have := List.mem_takeWhile_imp hmem
      simp at this
    · intro e
      rw [e] at h0
      exact h0 rfl

/-- A non-empty datagram of at most 511 bytes without a NUL byte is received
whole. -/
theorem receive_whole {w : Str} (hne : w ≠ []) (hlen : w.length ≤ 511) (hnul : '\x00' ∉ w) :
    receive w = some w := by
  unfold receive
  have h0 : ¬ w.length = 0 := fun e => hne (List.length_eq_zero.mp e)
  simp only [h0, if_false, Option.some.injEq]
  rw [List.take_of_length_le hlen, List.takeWhile_eq_self_iff]
  intro x hx
  have : x ≠ '\x00' := fun e => hnul (e ▸ hx)
  simpa using this

/-- What is received of a datagram within the limits is the datagram. -/
theorem receive_eq_self {w m : Str} (h : receive w = some m) (hlen : w.length ≤ 511)
    (hnul : '\x00' ∉ w) : m = w := by
  have hne := (receive_facts h).2.2.2
  rw [receive_whole hne hlen hnul] at h
  exact (Option.some.inj h).symm

/-- A head of at most 511 bytes without a NUL byte is received whole, followed
by a part of what comes behind it. -/
theorem receive_append {H tail : Str} (hne : H ≠ []) (hlen : H.length ≤ 511)
    (hnul : '\x00' ∉ H) :
    ∃ tail2, receive (H ++ tail) = some (H ++ tail2) ∧ tail2 <+: tail := by
  refine ⟨(tail.take (511 - H.length)).takeWhile (fun c => c != '\x00'), ?_,
    (List.takeWhile_prefix _).trans (List.take_prefix _ tail)⟩
  unfold receive
  have h0 : ¬ (H ++ tail).length = 0 := by
    intro e
    have := List.length_eq_zero.mp e
    exact hne (List.append_eq_nil.mp this).1
  simp only [h0, if_false, Option.some.injEq]
  rw [List.take_append_eq_append_take, List.take_of_length_le hlen,
    List.takeWhile_append_of_pos]
  intro x hx
  have : x ≠ '\x00' := fun e => hnul (e ▸ hx)
  simpa using this

/-- The handler of a datagram is the dispatch on what is received of it. -/
theorem loop_packet_eq (st : Device) {w m : Str} (A : IPAddress) (h : receive w = some m) :
    loop_packet st w A = loop_udp st m A := by
  simp only [loop_packet, h]

/-- A successful `indexOf(pat, k)` returns an offset from `k` on that carries
a match. -/
theorem indexOfFrom_found {s pat : Str} {k : Nat} (h : WString.indexOfFrom s pat k ≠ -1) :
    ∃ i, WString.indexOfFrom s pat k = ((k + i : Nat) : Int) ∧ pat <+: s.drop (k + i) := by
  unfold WString.indexOfFrom at h ⊢
  by_cases hk : k ≥ s.length
  · simp [hk] at h
  · simp only [hk, if_false] at h ⊢
    cases hs : WString.strstr pat (s.drop k) with
    | none => simp [hs] at h
    | some i =>
      refine ⟨i, rfl, ?_⟩
      have := (strstr_some hs).1
      rwa [List.drop_drop] at this

/-- A text that decodes carries `"@@"` at two offsets at least two apart. -/
theorem decode_envelope_markers {m : Str} {r : Str × Str} (h : decode_envelope m = some r) :
    ∃ i j, "@@".toList <+: m.drop i ∧ i + 2 ≤ j ∧ "@@".toList <+: m.drop j := by
  simp only [decode_envelope] at h
  split_ifs at h with hc
  obtain ⟨h1, h2⟩ := hc
  obtain ⟨i, e1, p1⟩ := @indexOfFrom_found m "@@".toList 0 h1
  have e1b : WString.indexOf m "@@".toList = ((0 + i : Nat) : Int) := e1
  rw [e1b] at h2
  have hn : ((((0 + i : Nat) : Int)) + 2).toNat = i + 2 := by omega
  rw [hn] at h2
  obtain ⟨k, _, p2⟩ := indexOfFrom_found h2
  exact ⟨i, i + 2 + k, by simpa using p1, by omega, p2⟩

/-- A text whose first `"@@"` has no second one from two bytes behind it on, or
that has no `"@@"` at all, has no prefix that decodes. -/
theorem decode_envelope_prefix_none {w m : Str} (hm : m <+: w)
    (hmal : ¬ "@@".toList <:+: w ∨
      ∃ i, "@@".toList <+: w.drop i ∧ (∀ j, j < i → ¬ "@@".toList <+: w.drop j) ∧
        ¬ "@@".toList <:+: w.drop (i + 2)) :
    decode_envelope m = none := by
  cases hd : decode_envelope m with
  | none => rfl
  | some r =>
    exfalso
    obtain ⟨i, j, p1, hij, p2⟩ := decode_envelope_markers hd
    have q1 : "@@".toList <+: w.drop i := p1.trans (hm.drop i)
    have q2 : "@@".toList <+: w.drop j := p2.trans (hm.drop j)
    rcases hmal with h | ⟨i0, _, hmin, hno⟩
    · exact h (infix_iff_prefix_drop.mpr ⟨i, q1⟩)
    · have hi : i0 ≤ i := by
        by_contra hlt
        exact hmin i (by omega) q1
      apply hno
      refine infix_iff_prefix_drop.mpr ⟨j - (i0 + 2), ?_⟩
      rw [List.drop_drop]
      have : i0 + 2 + (j - (i0 + 2)) = j := by omega
      rw [this]
      exact q2

/-! ## The claims about inbound datagrams -/

/-- C5 (amended). On a coordinator, for every inbound datagram `w` from address
`A` whose received text `m` (the first 511 bytes of `w` up to the first NUL
byte, so `w` itself when `w` has at most 511 bytes and no NUL byte) is not
`"@@NEW_CLIENT"`, does not start with `"@@ACK"` and decodes to `(id, payload)`:
the handler appends `payload` to the history, then broadcasts `m`, then sends
`"@@ACK " + id` to `A`; these two datagrams are all it sends, and it prints
nothing. -/
theorem coordinator_relay (st : Device) (w m : Str) (A : IPAddress) (id payload : Str)
    (hap : st.is_ap_mode = true) (hrecv : receive w = some m)
    (hnew : m ≠ CMD_NEW_CLIENT) (hack : ¬ CMD_ACK <+: m)
    (hdec : decode_envelope m = some (id, payload)) :
    loop_packet st w A = send_ack (broadcast_message (add_to_history st payload) m) A id ∧
      (loop_packet st w A).message_history = (add_to_history st payload).message_history ∧
      (loop_packet st w A).history_size = (add_to_history st payload).history_size ∧
      (loop_packet st w A).udp_out =
        st.udp_out ++ [Datagram.mk broadcast_ip m, Datagram.mk A ("@@ACK ".toList ++ id)] ∧
      (loop_packet st w A).serial_out = st.serial_out ∧
      (w.length ≤ 511 → '\x00' ∉ w → m = w) := by
  obtain ⟨h1, h2, h3, h4, h5⟩ := loop_udp_relay st m A id payload hap hnew hack hdec
  rw [loop_packet_eq st A hrecv]
  exact ⟨h1, h2, h3, h4, h5, receive_eq_self hrecv⟩

/-- C5 at the example of the specification: `"@@42-AP@@System: hi"` from
10.0.0.5 is received whole, appends `"System: hi"`, is broadcast again
unchanged, and is acknowledged with `"@@ACK 42-AP"` to 10.0.0.5. -/
theorem coordinator_relay_witness :
    receive "@@42-AP@@System: hi".toList = some "@@42-AP@@System: hi".toList ∧
    "@@42-AP@@System: hi".toList ≠ CMD_NEW_CLIENT ∧
    ¬ CMD_ACK <+: "@@42-AP@@System: hi".toList ∧
    decode_envelope "@@42-AP@@System: hi".toList = some ("42-AP".toList, "System: hi".toList) ∧
    (loop_packet (Device.init true ⟨192, 168, 4, 1⟩) "@@42-AP@@System: hi".toList
        ⟨10, 0, 0, 5⟩).message_history = "System: hi\n".toList ∧
    (loop_packet (Device.init true ⟨192, 168, 4, 1⟩) "@@42-AP@@System: hi".toList
        ⟨10, 0, 0, 5⟩).udp_out =
      [Datagram.mk broadcast_ip "@@42-AP@@System: hi".toList,
       Datagram.mk ⟨10, 0, 0, 5⟩ "@@ACK 42-AP".toList] :=
  ⟨by decide, by decide, by decide, by decide,
   ((coordinator_relay (Device.init true ⟨192, 168, 4, 1⟩) "@@42-AP@@System: hi".toList
      "@@42-AP@@System: hi".toList ⟨10, 0, 0, 5⟩ "42-AP".toList "System: hi".toList rfl
      (by decide) (by decide) (by decide) (by decide)).2.1).trans (by decide),
   (coordinator_relay (Device.init true ⟨192, 168, 4, 1⟩) "@@42-AP@@System: hi".toList
      "@@42-AP@@System: hi".toList ⟨10, 0, 0, 5⟩ "42-AP".toList "System: hi".toList rfl
      (by decide) (by decide) (by decide) (by decide)).2.2.2.1⟩

set_option maxRecDepth 100000 in
/-- C5 as stated fails. The 626-byte datagram `"@@1-10.0.0.5@@[10.0.0.5]: "`
followed by 600 `x` (what a peer broadcasts for a line of 600 bytes) is not
`"@@NEW_CLIENT"`, does not start with `"@@ACK"` and decodes, yet the coordinator
broadcasts its first 511 bytes and not the datagram, and stores 497 bytes of
the payload. So does `"@@1@@a"`, NUL, `"b"`: it is broadcast as `"@@1@@a"`. -/
theorem coordinator_relay_fails :
    ("@@1-10.0.0.5@@[10.0.0.5]: ".toList ++ List.replicate 600 'x' ≠ CMD_NEW_CLIENT ∧
      ¬ CMD_ACK <+: "@@1-10.0.0.5@@[10.0.0.5]: ".toList ++ List.replicate 600 'x' ∧
      decode_envelope ("@@1-10.0.0.5@@[10.0.0.5]: ".toList ++ List.replicate 600 'x')
        = some ("1-10.0.0.5".toList, "[10.0.0.5]: ".toList ++ List.replicate 600 'x') ∧
      (loop_packet (Device.init true ⟨192, 168, 4, 1⟩)
          ("@@1-10.0.0.5@@[10.0.0.5]: ".toList ++ List.replicate 600 'x') ⟨10, 0, 0, 5⟩).udp_out
        = [Datagram.mk broadcast_ip
            ("@@1-10.0.0.5@@[10.0.0.5]: ".toList ++ List.replicate 485 'x'),
           Datagram.mk ⟨10, 0, 0, 5⟩ "@@ACK 1-10.0.0.5".toList] ∧
      (loop_packet (Device.init true ⟨192, 168, 4, 1⟩)
          ("@@1-10.0.0.5@@[10.0.0.5]: ".toList ++ List.replicate 600 'x') ⟨10, 0, 0, 5⟩).udp_out
        ≠ [Datagram.mk broadcast_ip
            ("@@1-10.0.0.5@@[10.0.0.5]: ".toList ++ List.replicate 600 'x'),
           Datagram.mk ⟨10, 0, 0, 5⟩ "@@ACK 1-10.0.0.5".toList] ∧
      (loop_packet (Device.init true ⟨192, 168, 4, 1⟩)
          ("@@1-10.0.0.5@@[10.0.0.5]: ".toList ++ List.replicate 600 'x')
          ⟨10, 0, 0, 5⟩).message_history
        = "[10.0.0.5]: ".toList ++ List.replicate 485 'x' ++ ['\n']) ∧
    ("@@1@@a\x00b".toList ≠ CMD_NEW_CLIENT ∧
      ¬ CMD_ACK <+: "@@1@@a\x00b".toList ∧
      decode_envelope "@@1@@a\x00b".toList = some ("1".toList, "a\x00b".toList) ∧
      (loop_packet (Device.init true ⟨192, 168, 4, 1⟩) "@@1@@a\x00b".toList
          ⟨10, 0, 0, 5⟩).udp_out
        = [Datagram.mk broadcast_ip "@@1@@a".toList,
           Datagram.mk ⟨10, 0, 0, 5⟩ "@@ACK 1".toList]) := by
  decide

/-- C6 (amended). On a peer whose address prints as `P`, for every inbound
datagram `w` from address `R` whose received text `m` (the first 511 bytes of
`w` up to the first NUL byte, so `w` itself when `w` has at most 511 bytes and
no NUL byte) is no control token (it starts with none of `"@@HISTORY_START"`,
`"@@HISTORY_END"`, `"@@ACK"` and is not `"@@NEW_CLIENT"`) and decodes to
`(id, payload)`: when `payload` starts with `"[" + P + "]"` the handler changes
nothing (it displays nothing and sends nothing); otherwise it displays
`payload` and sends exactly one datagram, `"@@ACK " + id`, to `R`. -/
theorem peer_display_or_suppress (st : Device) (w m : Str) (R : IPAddress)
    (id payload : Str) (hpeer : st.is_ap_mode = false) (hrecv : receive w = some m)
    (hstart : ¬ CMD_HISTORY_START <+: m) (hend : ¬ CMD_HISTORY_END <+: m)
    (hack : ¬ CMD_ACK <+: m) (hnew : m ≠ CMD_NEW_CLIENT)
    (hdec : decode_envelope m = some (id, payload)) :
    (("[".toList ++ st.local_ip.toString ++ "]".toList) <+: payload →
        loop_packet st w R = st) ∧
      (¬ ("[".toList ++ st.local_ip.toString ++ "]".toList) <+: payload →
        loop_packet st w R = send_ack (println st payload) R id ∧
        (loop_packet st w R).serial_out = st.serial_out ++ [payload] ∧
        (loop_packet st w R).udp_out
          = st.udp_out ++ [Datagram.mk R ("@@ACK ".toList ++ id)]) ∧
      (w.length ≤ 511 → '\x00' ∉ w → m = w) := by
  obtain ⟨h1, h2⟩ := loop_udp_peer_message st m R id payload hpeer hstart hend hack hnew hdec
  rw [loop_packet_eq st R hrecv]
  exact ⟨h1, h2, receive_eq_self hrecv⟩

/-- C6 at the peer 192.168.4.2: a message of 192.168.4.3 relayed by the
coordinator 192.168.4.1 is received whole, displayed, and acknowledged to the
coordinator. -/
theorem peer_display_or_suppress_witness :
    receive "@@7-192.168.4.3@@[192.168.4.3]: hi".toList
      = some "@@7-192.168.4.3@@[192.168.4.3]: hi".toList ∧
    (¬ CMD_HISTORY_START <+: "@@7-192.168.4.3@@[192.168.4.3]: hi".toList) ∧
    (¬ ("[".toList ++ (Device.init false ⟨192, 168, 4, 2⟩).local_ip.toString ++ "]".toList)
        <+: "[192.168.4.3]: hi".toList) ∧
    (loop_packet (Device.init false ⟨192, 168, 4, 2⟩)
        "@@7-192.168.4.3@@[192.168.4.3]: hi".toList ⟨192, 168, 4, 1⟩).serial_out
      = ["[192.168.4.3]: hi".toList] ∧
    (loop_packet (Device.init false ⟨192, 168, 4, 2⟩)
        "@@7-192.168.4.3@@[192.168.4.3]: hi".toList ⟨192, 168, 4, 1⟩).udp_out
      = [Datagram.mk ⟨192, 168, 4, 1⟩ "@@ACK 7-192.168.4.3".toList] :=
  ⟨by decide, by decide, by decide,
   ((peer_display_or_suppress (Device.init false ⟨192, 168, 4, 2⟩)
      "@@7-192.168.4.3@@[192.168.4.3]: hi".toList "@@7-192.168.4.3@@[192.168.4.3]: hi".toList
      ⟨192, 168, 4, 1⟩ "7-192.168.4.3".toList "[192.168.4.3]: hi".toList rfl (by decide)
      (by decide) (by decide) (by decide) (by decide) (by decide)).2.1 (by decide)).2⟩

set_option maxRecDepth 100000 in
/-- C6 as stated fails. On the peer 192.168.4.2 the 626-byte datagram
`"@@1-10.0.0.5@@[10.0.0.5]: "` followed by 600 `x` is no control token and
decodes to a payload of 612 bytes, yet the peer displays 497 bytes of it. And
the 526-byte datagram with an id of 505 digits and the payload
`"[192.168.4.2]: hi"`, which carries the peer's own prefix, is not suppressed:
the peer displays `"[1"` and sends an acknowledgment. -/
theorem peer_display_or_suppress_fails :
    (decode_envelope ("@@1-10.0.0.5@@[10.0.0.5]: ".toList ++ List.replicate 600 'x')
        = some ("1-10.0.0.5".toList, "[10.0.0.5]: ".toList ++ List.replicate 600 'x') ∧
      ¬ ("[".toList ++ (Device.init false ⟨192, 168, 4, 2⟩).local_ip.toString ++ "]".toList)
        <+: "[10.0.0.5]: ".toList ++ List.replicate 600 'x' ∧
      (loop_packet (Device.init false ⟨192, 168, 4, 2⟩)
          ("@@1-10.0.0.5@@[10.0.0.5]: ".toList ++ List.replicate 600 'x')
          ⟨192, 168, 4, 1⟩).serial_out
        = ["[10.0.0.5]: ".toList ++ List.replicate 485 'x'] ∧
      (loop_packet (Device.init false ⟨192, 168, 4, 2⟩)
          ("@@1-10.0.0.5@@[10.0.0.5]: ".toList ++ List.replicate 600 'x')
          ⟨192, 168, 4, 1⟩).serial_out
        ≠ ["[10.0.0.5]: ".toList ++ List.replicate 600 'x']) ∧
    (decode_envelope
        ("@@".toList ++ List.replicate 505 '1' ++ "@@[192.168.4.2]: hi".toList)
        = some (List.replicate 505 '1', "[192.168.4.2]: hi".toList) ∧
      ("[".toList ++ (Device.init false ⟨192, 168, 4, 2⟩).local_ip.toString ++ "]".toList)
        <+: "[192.168.4.2]: hi".toList ∧
      (loop_packet (Device.init false ⟨192, 168, 4, 2⟩)
          ("@@".toList ++ List.replicate 505 '1' ++ "@@[192.168.4.2]: hi".toList)
          ⟨192, 168, 4, 1⟩).serial_out = ["[1".toList] ∧
      (loop_packet (Device.init false ⟨192, 168, 4, 2⟩)
          ("@@".toList ++ List.replicate 505 '1' ++ "@@[192.168.4.2]: hi".toList)
          ⟨192, 168, 4, 1⟩).udp_out
        = [Datagram.mk ⟨192, 168, 4, 1⟩ ("@@ACK ".toList ++ List.replicate 505 '1')]) := by
  decide

/-- A text is what precedes its first byte that fails `p`, alone or followed by
that byte and more. -/
theorem takeWhile_split (p : Char → Bool) : ∀ w : Str,
    w = w.takeWhile p ∨ ∃ c rest, w = w.takeWhile p ++ c :: rest ∧ p c = false := by
  intro w
  induction w with
  | nil => exact Or.inl rfl
  | cons x xs ih =>
    cases hx : p x with
    | false => exact Or.inr ⟨x, xs, by simp [List.takeWhile, hx], hx⟩
    | true =>
      rcases ih with h | ⟨c, rest, h, hc⟩
      · left
        simp only [List.takeWhile, hx]
        rw [← h]
      · right
        refine ⟨c, rest, ?_, hc⟩
        simp only [List.takeWhile, hx, List.cons_append]
        rw [← h]

/-- Cutting at the first byte that fails `p` gives the same before and after a
truncation that is longer than the result. -/
theorem takeWhile_take_short (p : Char → Bool) : ∀ (n : Nat) (w : Str),
    ((w.take n).takeWhile p).length < n → w.takeWhile p = (w.take n).takeWhile p := by
  intro n w
  induction w generalizing n with
  | nil => intro _; simp
  | cons x xs ih =>
    intro h
    cases n with
    | zero => simp at h
    | succ k =>
      cases hx : p x with
      | false => simp [List.takeWhile, hx]
      | true =>
        simp only [List.take_succ_cons, List.takeWhile, hx, List.length_cons] at h ⊢
        rw [ih k (by omega)]

/-- C7 (amended). In either role, for every inbound datagram `w` that is no
control command (not `"@@NEW_CLIENT"`, and on a coordinator also not
`"@@NEW_CLIENT"` followed by a NUL byte and anything more; not starting with
`"@@ACK"`; and on a peer not starting with `"@@HISTORY_START"` or
`"@@HISTORY_END"`) and in which `"@@"` does not occur, or does not occur again
from two bytes after its first occurrence on, the handler changes nothing:
history buffer and counter stay, no datagram is sent and nothing is
displayed. -/
theorem malformed_dropped (st : Device) (w : Str) (A : IPAddress)
    (hnew : w ≠ CMD_NEW_CLIENT)
    (hnul : st.is_ap_mode = true → ∀ rest, w ≠ CMD_NEW_CLIENT ++ '\x00' :: rest)
    (hack : ¬ CMD_ACK <+: w)
    (hpeer : st.is_ap_mode = false →
      ¬ CMD_HISTORY_START <+: w ∧ ¬ CMD_HISTORY_END <+: w)
    (hmal : ¬ "@@".toList <:+: w ∨
      ∃ i, "@@".toList <+: w.drop i ∧ (∀ j, j < i → ¬ "@@".toList <+: w.drop j) ∧
        ¬ "@@".toList <:+: w.drop (i + 2)) :
    loop_packet st w A = st := by
  cases hrecv : receive w with
  | none => simp only [loop_packet, hrecv]
  | some m =>
    rw [loop_packet_eq st A hrecv]
    obtain ⟨hpre, _, _, _⟩ := receive_facts hrecv
    have hdec : decode_envelope m = none := decode_envelope_prefix_none hpre hmal
    have h3 := (startsWith_eq_false_iff m CMD_ACK).mpr (fun h => hack (h.trans hpre))
    cases hrole : st.is_ap_mode with
    | true =>
      have hm : m ≠ CMD_NEW_CLIENT := by
        intro e
        have hcut : m = (w.take 511).takeWhile (fun c => c != '\x00') := by
          unfold receive at hrecv
          by_cases h0 : w.length = 0
          · simp [h0] at hrecv
          · simp only [h0, if_false, Option.some.injEq] at hrecv
            exact hrecv.symm
        have hshort : ((w.take 511).takeWhile (fun c => c != '\x00')).length < 511 := by
          rw [← hcut, e]
          decide
        have hw : w.takeWhile (fun c => c != '\x00') = CMD_NEW_CLIENT := by
          rw [takeWhile_take_short _ 511 w hshort, ← hcut, e]
        rcases takeWhile_split (fun c => c != '\x00') w with h | ⟨c, rest, h, hc⟩
        · rw [hw] at h
          exact hnew h
        · rw [hw] at h
          have hc0 : c = '\x00' := by simpa using hc
          rw [hc0] at h
          exact hnul hrole rest h
      simp only [loop_udp, hrole, if_true, hm, if_false, h3, Bool.false_eq_true, hdec]
    | false =>
      obtain ⟨hs, he⟩ := hpeer hrole
      have h1 := (startsWith_eq_false_iff m CMD_HISTORY_START).mpr
        (fun h => hs (h.trans hpre))
      have h2 := (startsWith_eq_false_iff m CMD_HISTORY_END).mpr (fun h => he (h.trans hpre))
      simp only [loop_udp, hrole, h1, h2, h3, hdec, Bool.false_eq_true, if_false, ite_self]

/-- C7 at a coordinator that receives `"@@7-AP hello"`, which has one marker
only. -/
theorem malformed_dropped_witness :
    "@@7-AP hello".toList ≠ CMD_NEW_CLIENT ∧ ¬ CMD_ACK <+: "@@7-AP hello".toList ∧
    "@@".toList <+: ("@@7-AP hello".toList).drop 0 ∧
    ¬ "@@".toList <:+: ("@@7-AP hello".toList).drop (0 + 2) ∧
    loop_packet (Device.init true ⟨192, 168, 4, 1⟩) "@@7-AP hello".toList ⟨192, 168, 4, 2⟩
      = Device.init true ⟨192, 168, 4, 1⟩ :=
  ⟨by decide, by decide, by decide, by decide,
   malformed_dropped (Device.init true ⟨192, 168, 4, 1⟩) "@@7-AP hello".toList
    ⟨192, 168, 4, 2⟩ (by decide)
    (fun _ _ e => absurd (show "@@7".toList = "@@N".toList from congrArg (List.take 3) e)
      (by decide))
    (by decide) (fun h => absurd h (by decide))
    (Or.inr ⟨0, by decide, fun j hj => absurd hj (Nat.not_lt_zero j), by decide⟩)⟩

/-- C7 as stated fails. The datagram `"@@NEW_CLIENT"`, NUL, `"x"` is not
`"@@NEW_CLIENT"`, does not start with `"@@ACK"` and has no second `"@@"` behind
its first, yet a coordinator receives it as `"@@NEW_CLIENT"`: it replays its
history to the sender and appends and broadcasts a join notice. -/
theorem malformed_dropped_fails :
    "@@NEW_CLIENT\x00x".toList ≠ CMD_NEW_CLIENT ∧
    ¬ CMD_ACK <+: "@@NEW_CLIENT\x00x".toList ∧
    "@@".toList <+: ("@@NEW_CLIENT\x00x".toList).drop 0 ∧
    ¬ "@@".toList <:+: ("@@NEW_CLIENT\x00x".toList).drop (0 + 2) ∧
    receive "@@NEW_CLIENT\x00x".toList = some CMD_NEW_CLIENT ∧
    loop_packet (Device.init true ⟨192, 168, 4, 1⟩) "@@NEW_CLIENT\x00x".toList
        ⟨192, 168, 4, 2⟩ ≠ Device.init true ⟨192, 168, 4, 1⟩ ∧
    (loop_packet (Device.init true ⟨192, 168, 4, 1⟩) "@@NEW_CLIENT\x00x".toList
        ⟨192, 168, 4, 2⟩).udp_out
      = [Datagram.mk ⟨192, 168, 4, 2⟩ CMD_HISTORY_START,
         Datagram.mk ⟨192, 168, 4, 2⟩ CMD_HISTORY_END,
         Datagram.mk broadcast_ip "System: 192.168.4.2 joined".toList] ∧
    (loop_packet (Device.init true ⟨192, 168, 4, 1⟩) "@@NEW_CLIENT\x00x".toList
        ⟨192, 168, 4, 2⟩).message_history = "System: 192.168.4.2 joined\n".toList := by
  decide

/-! ## A peer's own message, sent and received -/

/-- `String(unsigned long)` has at most ten digits. -/
theorem decimal_length_le {t : Nat} (ht : t < 2 ^ 32) : (decimal t).length ≤ 10 :=
  Nat.toDigitsCore_length 10 (by decide) (t + 1) t 10 (by omega) (by decide)

/-- An octet prints as at most three digits. -/
theorem octet_length_le (o : Fin 256) : (decimal o.val).length ≤ 3 :=
  Nat.toDigitsCore_length 10 (by decide) (o.val + 1) o.val 3 (by have := o.isLt; omega)
    (by decide)

/-- A dotted-decimal address has at most 15 bytes. -/
theorem toString_length_le (ip : IPAddress) : ip.toString.length ≤ 15 := by
  have h1 := octet_length_le ip.o1
  have h2 := octet_length_le ip.o2
  have h3 := octet_length_le ip.o3
  have h4 := octet_length_le ip.o4
  simp only [IPAddress.toString, List.length_append, List.length_singleton]
  omega

/-- The head `"@@" + id + "@@[" + P + "]"` of a peer's wire string has at most
511 bytes and no NUL byte. -/
theorem peer_head_facts (t : Nat) (ip : IPAddress) (ht : t < 2 ^ 32) :
    ("@@".toList ++ (decimal t ++ "-".toList ++ ip.toString) ++ "@@".toList
        ++ ("[".toList ++ ip.toString ++ "]".toList)).length ≤ 511 ∧
      '\x00' ∉ "@@".toList ++ (decimal t ++ "-".toList ++ ip.toString) ++ "@@".toList
        ++ ("[".toList ++ ip.toString ++ "]".toList) := by
  constructor
  · have h1 := decimal_length_le ht
    have h2 := toString_length_le ip
    simp only [List.length_append]
    have e1 : "@@".toList.length = 2 := rfl
    have e2 : "-".toList.length = 1 := rfl
    have e3 : "[".toList.length = 1 := rfl
    have e4 : "]".toList.length = 1 := rfl
    omega
  · have hid : '\x00' ∉ decimal t ++ "-".toList ++ ip.toString := by
      intro h
      rcases peer_id_chars t ip _ h with hd | hd | hd
      · exact absurd hd (by decide)
      · exact absurd hd (by decide)
      · exact absurd hd (by decide)
    have hip : '\x00' ∉ ip.toString := by
      intro h
      rcases toString_chars ip _ h with hd | hd
      · exact absurd hd (by decide)
      · exact absurd hd (by decide)
    intro h
    simp only [List.mem_append] at h
    rcases h with ((h | h) | h) | ((h | h) | h)
    · exact absurd h (by decide)
    · exact hid (by simpa only [List.mem_append] using h)
    · exact absurd h (by decide)
    · exact absurd h (by decide)
    · exact hip h
    · exact absurd h (by decide)

/-- C17. Self-echo suppression covers everything a peer originates: for every
peer (address `P` in dotted decimal), every uptime `t` (an `unsigned long`) and
every operator input whose trimmed text `x` is non-empty, the one datagram the
peer broadcasts is `w = "@@" + id + "@@" + f` with `id = decimal(t) + "-" + P`
and `f = "[" + P + "]: " + x`. What any device receives of `w` is
`m = "@@" + id + "@@" + f2`, where `f2` is `f` or, for a `w` of more than 511
bytes or with a NUL byte, a part of `f` that still starts with `"[" + P + "]"`;
`m` is no control token and decodes to `(id, f2)`. When `w` comes back to that
peer directly, from any sender and in whatever state `st2` the peer then is,
the handler changes nothing: nothing is displayed and no acknowledgment is
sent. A coordinator relays `m`, which is `w` unchanged when `w` has at most 511
bytes and no NUL byte, and the relayed datagram is suppressed by the peer in
the same way. -/
theorem self_echo_suppressed (st : Device) (input : Str) (t : Nat) (st2 : Device)
    (R : IPAddress) (hpeer : st.is_ap_mode = false) (hx : WString.trim input ≠ [])
    (ht : t < 2 ^ 32) (hpeer2 : st2.is_ap_mode = false) (hip : st2.local_ip = st.local_ip) :
    ∃ w id f m f2 : Str,
      id = decimal t ++ "-".toList ++ st.local_ip.toString ∧
      f = "[".toList ++ st.local_ip.toString ++ "]: ".toList ++ WString.trim input ∧
      w = "@@".toList ++ id ++ "@@".toList ++ f ∧
      (loop_serial st input t).udp_out = st.udp_out ++ [Datagram.mk broadcast_ip w] ∧
      receive w = some m ∧
      m = "@@".toList ++ id ++ "@@".toList ++ f2 ∧
      ("[".toList ++ st.local_ip.toString ++ "]".toList) <+: f2 ∧ f2 <+: f ∧
      (w.length ≤ 511 → '\x00' ∉ w → m = w) ∧
      m ≠ CMD_NEW_CLIENT ∧ ¬ CMD_HISTORY_START <+: m ∧ ¬ CMD_HISTORY_END <+: m ∧
      ¬ CMD_ACK <+: m ∧
      decode_envelope m = some (id, f2) ∧
      loop_packet st2 w R = st2 ∧
      (∀ (c : Device) (A : IPAddress), c.is_ap_mode = true →
        (loop_packet c w A).udp_out = c.udp_out ++
          [Datagram.mk broadcast_ip m, Datagram.mk A ("@@ACK ".toList ++ id)]) ∧
      loop_packet st2 m R = st2 := by
  obtain ⟨fAt, fA, fH, fN⟩ := peer_id_free t st.local_ip
  obtain ⟨hHlen, hHnul⟩ := peer_head_facts t st.local_ip ht
  have hidne : decimal t ++ "-".toList ++ st.local_ip.toString ≠ [] := by simp
  have hHne : "@@".toList ++ (decimal t ++ "-".toList ++ st.local_ip.toString) ++ "@@".toList
      ++ ("[".toList ++ st.local_ip.toString ++ "]".toList) ≠ [] := by simp
  -- the wire string is the head followed by `": " + x`
  have hf : "[".toList ++ st.local_ip.toString ++ "]: ".toList ++ WString.trim input
      = ("[".toList ++ st.local_ip.toString ++ "]".toList)
        ++ (": ".toList ++ WString.trim input) := by simp
  have hw : "@@".toList ++ (decimal t ++ "-".toList ++ st.local_ip.toString) ++ "@@".toList
        ++ ("[".toList ++ st.local_ip.toString ++ "]: ".toList ++ WString.trim input)
      = ("@@".toList ++ (decimal t ++ "-".toList ++ st.local_ip.toString) ++ "@@".toList
          ++ ("[".toList ++ st.local_ip.toString ++ "]".toList))
        ++ (": ".toList ++ WString.trim input) := by
    rw [hf, ← List.append_assoc]
  obtain ⟨tail2, hrecv0, htail⟩ :=
    @receive_append _ (": ".toList ++ WString.trim input) hHne hHlen hHnul
  have hm : ("@@".toList ++ (decimal t ++ "-".toList ++ st.local_ip.toString) ++ "@@".toList
          ++ ("[".toList ++ st.local_ip.toString ++ "]".toList)) ++ tail2
      = "@@".toList ++ (decimal t ++ "-".toList ++ st.local_ip.toString) ++ "@@".toList
          ++ (("[".toList ++ st.local_ip.toString ++ "]".toList) ++ tail2) :=
    List.append_assoc _ _ _
  rw [← hw, hm] at hrecv0
  have hown : ("[".toList ++ st.local_ip.toString ++ "]".toList)
      <+: (("[".toList ++ st.local_ip.toString ++ "]".toList) ++ tail2) :=
    List.prefix_append _ _
  have hpart : (("[".toList ++ st.local_ip.toString ++ "]".toList) ++ tail2)
      <+: "[".toList ++ st.local_ip.toString ++ "]: ".toList ++ WString.trim input := by
    rw [hf]
    exact (List.prefix_append_right_inj _).mpr htail
  have hstart : ¬ CMD_HISTORY_START <+:
      ("@@".toList ++ (decimal t ++ "-".toList ++ st.local_ip.toString) ++ "@@".toList
        ++ (("[".toList ++ st.local_ip.toString ++ "]".toList) ++ tail2)) := by
    rw [List.append_assoc ("@@".toList ++ _)]
    exact token_not_prefix 'H' "ISTORY_START".toList _ _ hidne fH
  have hend : ¬ CMD_HISTORY_END <+:
      ("@@".toList ++ (decimal t ++ "-".toList ++ st.local_ip.toString) ++ "@@".toList
        ++ (("[".toList ++ st.local_ip.toString ++ "]".toList) ++ tail2)) := by
    rw [List.append_assoc ("@@".toList ++ _)]
    exact token_not_prefix 'H' "ISTORY_END".toList _ _ hidne fH
  have hack : ¬ CMD_ACK <+:
      ("@@".toList ++ (decimal t ++ "-".toList ++ st.local_ip.toString) ++ "@@".toList
        ++ (("[".toList ++ st.local_ip.toString ++ "]".toList) ++ tail2)) := by
    rw [List.append_assoc ("@@".toList ++ _)]
    exact token_not_prefix 'A' "CK".toList _ _ hidne fA
  have hnew : "@@".toList ++ (decimal t ++ "-".toList ++ st.local_ip.toString) ++ "@@".toList
        ++ (("[".toList ++ st.local_ip.toString ++ "]".toList) ++ tail2)
      ≠ CMD_NEW_CLIENT := by
    intro e
    have hp : CMD_NEW_CLIENT <+:
        ("@@".toList ++ (decimal t ++ "-".toList ++ st.local_ip.toString) ++ "@@".toList
          ++ (("[".toList ++ st.local_ip.toString ++ "]".toList) ++ tail2)) := by
      rw [e]
    rw [List.append_assoc ("@@".toList ++ _)] at hp
    exact token_not_prefix 'N' "EW_CLIENT".toList _ _ hidne fN hp
  have hdec := decode_envelope_plain_id (decimal t ++ "-".toList ++ st.local_ip.toString)
    (("[".toList ++ st.local_ip.toString ++ "]".toList) ++ tail2) fAt
  have hself : ("[".toList ++ st2.local_ip.toString ++ "]".toList)
      <+: (("[".toList ++ st.local_ip.toString ++ "]".toList) ++ tail2) := by
    rw [hip]
    exact hown
  have hback := (loop_udp_peer_message st2 _ R _ _ hpeer2 hstart hend hack hnew hdec).1 hself
  obtain ⟨_, hmlen, hmnul, _⟩ := receive_facts hrecv0
  have hmne : "@@".toList ++ (decimal t ++ "-".toList ++ st.local_ip.toString) ++ "@@".toList
        ++ (("[".toList ++ st.local_ip.toString ++ "]".toList) ++ tail2) ≠ [] := by simp
  have hlen : (WString.trim input).length > 0 := List.length_pos.mpr hx
  refine ⟨_, _, _, _, _, rfl, rfl, rfl, ?_, hrecv0, rfl, hown, hpart,
    receive_eq_self hrecv0, hnew, hstart, hend, hack, hdec, ?_, ?_, ?_⟩
  · have hloop : loop_serial st input t =
        println (println
          (broadcast_message
            (add_to_history st
              ("[".toList ++ st.local_ip.toString ++ "]: ".toList ++ WString.trim input))
            ("@@".toList ++ (decimal t ++ "-".toList ++ st.local_ip.toString) ++ "@@".toList
              ++ ("[".toList ++ st.local_ip.toString ++ "]: ".toList ++ WString.trim input)))
          (">> ".toList
            ++ ("[".toList ++ st.local_ip.toString ++ "]: ".toList ++ WString.trim input)))
          "Waiting for ACKs...".toList := by
      simp only [loop_serial, hlen, if_true, hpeer, println, broadcast_message, udp_send,
        add_to_history_is_ap_mode, Bool.not_false, Bool.false_eq_true, if_false]
    rw [hloop]
    simp only [println, broadcast_message, udp_send]
    rw [add_to_history_udp_out]
  · rw [loop_packet_eq st2 R hrecv0]
    exact hback
  · intro c A hc
    rw [loop_packet_eq c A hrecv0]
    exact (loop_udp_relay c _ A _ _ hc hnew hack hdec).2.2.2.1
  · rw [loop_packet_eq st2 R (receive_whole hmne hmlen hmnul)]
    exact hback

/-- C17 at the peer 192.168.4.2, which typed `"hi"` at uptime 1234 and gets its
own message back from the coordinator. -/
theorem self_echo_suppressed_witness :
    (Device.init false ⟨192, 168, 4, 2⟩).is_ap_mode = false ∧
    WString.trim "hi".toList ≠ [] ∧
    (loop_serial (Device.init false ⟨192, 168, 4, 2⟩) "hi".toList 1234).udp_out
      = [Datagram.mk broadcast_ip "@@1234-192.168.4.2@@[192.168.4.2]: hi".toList] ∧
    loop_packet (loop_serial (Device.init false ⟨192, 168, 4, 2⟩) "hi".toList 1234)
        "@@1234-192.168.4.2@@[192.168.4.2]: hi".toList ⟨192, 168, 4, 1⟩
      = loop_serial (Device.init false ⟨192, 168, 4, 2⟩) "hi".toList 1234 := by
  obtain ⟨w, id, f, m, f2, rfl, rfl, rfl, h1, _, _, _, _, _, _, _, _, _, _, h2, _, _⟩ :=
    self_echo_suppressed (Device.init false ⟨192, 168, 4, 2⟩) "hi".toList 1234
      (loop_serial (Device.init false ⟨192, 168, 4, 2⟩) "hi".toList 1234) ⟨192, 168, 4, 1⟩
      rfl (by decide) (by decide) (by decide) (by decide)
  exact ⟨rfl, by decide, h1, h2⟩

end Chat
